import Mathlib

/-! The multi-contract event watcher generated by `pkg/template.go`.

The template `tmplSource` renders, for every contract type and every event `X`
of it, a watcher with the fields `contracts`, `subscriptionsForX`, `sinkForX`
and the operations `NewWatcher`, `WatchX` and `unsubscribeX`.  This file embeds
one instance of that generated code (one contract type, one event `X`) as pure
functions over an explicit world, and the two `range`/`if` fragments of the
template that produce the filter parameters and the filter arguments.

Modelling conventions.

* Handles (contract instances, subscriptions, channels) are natural numbers.
* The world is a counter of subscription handles handed out so far and the
  chronological trace of the observable actions.
* The underlying single-contract primitive `c.WatchX(opts, sink, ...)` is an
  oracle of type `Remote`: it decides, from the contract, the call and the
  world, whether the subscribe fails (and with which error).  A successful
  subscribe returns a fresh handle.
* One iteration of the background loop reads an `Obs`: what the channels it
  selects on offer at that moment.
-/

namespace EthLogAggregator

/-! ## Data model -/

abbrev Addr := Nat
abbrev SubId := Nat
abbrev ChanId := Nat
abbrev Err := Nat
abbrev Evt := Nat

/-- The arguments of one `WatchX` call: `opts`, `sink` and one slice per
indexed input. -/
structure Call where
  opts : Nat
  sink : ChanId
  filters : List (List Nat)
deriving DecidableEq, Repr

/-- The producer function handed to `event.NewSubscription` (template lines
130-149).  It closes over the watcher (by pointer) and over `sink`. -/
structure Task where
  sink : ChanId
deriving DecidableEq, Repr

/-- Observable actions, in the order they happen. -/
inductive Action where
  /-- `c.WatchX(opts, sink, ...)` returned the subscription `s` and a nil error -/
  | subscribed (c : Addr) (call : Call) (s : SubId)
  /-- `c.WatchX(opts, sink, ...)` returned the error `e` -/
  | subscribeFailed (c : Addr) (call : Call) (e : Err)
  /-- `sub.Unsubscribe()` -/
  | unsubscribe (s : SubId)
  /-- one non-blocking receive on `sub.Err()` -/
  | pollErr (s : SubId)
  /-- `event.NewSubscription(producer)` started the producer -/
  | spawn (t : Task)
  /-- the background task executed `sink <- evt` -/
  | forward (ch : ChanId) (e : Evt)
  /-- the underlying subscription `s` pushed `e` on the channel `ch` it was opened with -/
  | emit (s : SubId) (ch : ChanId) (e : Evt)
deriving DecidableEq, Repr

structure World where
  nextSub : Nat
  trace : List Action
deriving DecidableEq, Repr

/-- The struct `XWatcher` (template lines 91-98), for one event `X`.
`sinkForX = none` is the nil channel. -/
structure Watcher where
  contracts : List Addr
  subscriptionsForX : List SubId
  sinkForX : Option ChanId
deriving DecidableEq, Repr

/-- Outcome of the underlying `c.WatchX(...)`: `some e` is a non-nil error. -/
abbrev Remote := Addr → Call → World → Option Err

def World.log (wd : World) (a : Action) : World :=
  { wd with trace := wd.trace ++ [a] }

/-! ## Operations -/

/-- Template lines 101-108: `contracts` is stored, `subscriptionsForX` is
`make([]event.Subscription, 0)`, `sinkForX` is not mentioned (zero value). -/
def NewWatcher (contracts : List Addr) : Watcher :=
  { contracts := contracts, subscriptionsForX := [], sinkForX := none }

/-- The `range` loop of `unsubscribeX` (lines 153-155) over a list of handles. -/
def unsubscribeLoop : List SubId → World → World
  | [], wd => wd
  | s :: rest, wd => unsubscribeLoop rest (wd.log (Action.unsubscribe s))

/-- Template lines 152-156. -/
def unsubscribeX (w : Watcher) (wd : World) : World :=
  unsubscribeLoop w.subscriptionsForX wd

/-- The `range w.contracts` loop of `WatchX` (lines 113-128).  Returns the
error of the early return, if any, and the watcher and world at that point. -/
def watchLoop (remote : Remote) (call : Call) :
    List Addr → Watcher → World → Option Err × Watcher × World
  | [], w, wd => (none, w, wd)
  | c :: rest, w, wd =>
    match remote c call wd with
    | some e =>
      (some e, w, unsubscribeX w (wd.log (Action.subscribeFailed c call e)))
    | none =>
      watchLoop remote call rest
        { w with subscriptionsForX := w.subscriptionsForX ++ [wd.nextSub] }
        { nextSub := wd.nextSub + 1,
          trace := wd.trace ++ [Action.subscribed c call wd.nextSub] }

/-- What `WatchX` returns, with the watcher and the world it leaves. -/
structure WatchResult where
  sub : Option Task
  err : Option Err
  watcher : Watcher
  world : World
deriving DecidableEq, Repr

/-- Template lines 112-150. -/
def WatchX (remote : Remote) (call : Call) (w : Watcher) (wd : World) : WatchResult :=
  match watchLoop remote call w.contracts w wd with
  | (some e, w1, wd1) => { sub := none, err := some e, watcher := w1, world := wd1 }
  | (none, w1, wd1) =>
    { sub := some { sink := call.sink }, err := none, watcher := w1,
      world := wd1.log (Action.spawn { sink := call.sink }) }

/-- What one iteration of the background loop finds on the channels it
selects on. -/
structure Obs where
  /-- an item is ready on the channel -/
  recv : ChanId → Option Evt
  /-- the quit channel is ready -/
  quit : Bool
  /-- a value is ready on `sub.Err()` (the value itself may be nil) -/
  errs : SubId → Option (Option Err)
  /-- the case `select` picks when both the receive and the quit case are ready -/
  pickQuit : Bool

inductive Outcome where
  /-- the `for` loop goes round again -/
  | again
  /-- the producer returned this error value (`none` is nil) -/
  | done (err : Option Err)
deriving DecidableEq, Repr

/-- The inner `range w.subscriptionsForX` loop of the `default` branch (lines
139-146): `some v` when it returned `v`, `none` when it ran to the end. -/
def pollErrs (obs : Obs) : List SubId → World → Option (Option Err) × World
  | [], wd => (none, wd)
  | s :: rest, wd =>
    match obs.errs s with
    | some v => (some v, wd.log (Action.pollErr s))
    | none => pollErrs obs rest (wd.log (Action.pollErr s))

structure StepResult where
  outcome : Outcome
  watcher : Watcher
  world : World
deriving DecidableEq, Repr

/-- One iteration of the `for { select { ... } }` of the producer (lines
131-148).  A receive on a nil channel is never ready; `default` runs only when
no other case is ready. -/
def taskStep (obs : Obs) (t : Task) (w : Watcher) (wd : World) : StepResult :=
  let quitBranch : StepResult :=
    { outcome := Outcome.done none, watcher := w, world := unsubscribeX w wd }
  let forwardBranch (evt : Evt) : StepResult :=
    { outcome := Outcome.again, watcher := w, world := wd.log (Action.forward t.sink evt) }
  match w.sinkForX.bind obs.recv, obs.quit with
  | some evt, true => if obs.pickQuit then quitBranch else forwardBranch evt
  | some evt, false => forwardBranch evt
  | none, true => quitBranch
  | none, false =>
    match pollErrs obs w.subscriptionsForX wd with
    | (some v, wd1) => { outcome := Outcome.done v, watcher := w, world := wd1 }
    | (none, wd1) => { outcome := Outcome.again, watcher := w, world := wd1 }

/-- The `for` loop of the producer (lines 131-148) run on successive
observations, one per iteration, until an iteration returns.  The outcome is
`again` when the observations are used up and the loop is still going. -/
def taskLoop (t : Task) : List Obs → Watcher → World → StepResult
  | [], w, wd => { outcome := Outcome.again, watcher := w, world := wd }
  | obs :: rest, w, wd =>
    match (taskStep obs t w wd).outcome with
    | Outcome.done _ => taskStep obs t w wd
    | Outcome.again =>
      taskLoop t rest (taskStep obs t w wd).watcher (taskStep obs t w wd).world

/-! ## Executions -/

/-- The channel the subscription `s` was opened with, read off the trace. -/
def sinkOf (tr : List Action) (s : SubId) : Option ChanId :=
  tr.findSome? fun a =>
    match a with
    | Action.subscribed _ call s1 => if s1 = s then some call.sink else none
    | _ => none

/-- Everything that can happen to a watcher and its world. -/
inductive Op where
  /-- a call of `WatchX` -/
  | watch (remote : Remote) (call : Call)
  /-- one iteration of the background loop of a task -/
  | step (obs : Obs) (t : Task)
  /-- a call of `unsubscribeX` -/
  | unsub
  /-- the underlying subscription `s` delivers `e` to the channel it was given -/
  | emit (s : SubId) (e : Evt)

abbrev State := Watcher × World

def applyOp (op : Op) (st : State) : State :=
  match op with
  | Op.watch remote call =>
    ((WatchX remote call st.1 st.2).watcher, (WatchX remote call st.1 st.2).world)
  | Op.step obs t => ((taskStep obs t st.1 st.2).watcher, (taskStep obs t st.1 st.2).world)
  | Op.unsub => (st.1, unsubscribeX st.1 st.2)
  | Op.emit s e =>
    match sinkOf st.2.trace s with
    | some ch => (st.1, st.2.log (Action.emit s ch e))
    | none => st

def run : List Op → State → State
  | [], st => st
  | op :: ops, st => run ops (applyOp op st)

/-- States a watcher built by `NewWatcher` can be in. -/
def Reachable (st : State) : Prop :=
  ∃ contracts wd0 ops, st = run ops (NewWatcher contracts, wd0)

/-- The actions `after` has beyond `before`. -/
def newActions (before after : World) : List Action :=
  after.trace.drop before.trace.length

/-- The subscriptions a stretch of trace opens. -/
def opened (tr : List Action) : List SubId :=
  tr.filterMap fun a =>
    match a with
    | Action.subscribed _ _ s => some s
    | _ => none

/-- The events a stretch of trace puts on the channel `ch`. -/
def received (ch : ChanId) (tr : List Action) : List Evt :=
  tr.filterMap fun a =>
    match a with
    | Action.forward ch1 e => if ch1 = ch then some e else none
    | Action.emit _ ch1 e => if ch1 = ch then some e else none
    | _ => none

/-- The handles `n` consecutive successful subscribes return. -/
def freshSubs (wd : World) (n : Nat) : List SubId :=
  List.range' wd.nextSub n

/-- The trace `n` consecutive successful subscribes leave. -/
def openActions (call : Call) (cs : List Addr) (wd : World) : List Action :=
  List.zipWith (fun c s => Action.subscribed c call s) cs (freshSubs wd cs.length)

/-- The contracts a stretch of trace tried to subscribe to, in order. -/
def attempted (tr : List Action) : List Addr :=
  tr.filterMap fun a =>
    match a with
    | Action.subscribed c _ _ => some c
    | Action.subscribeFailed c _ _ => some c
    | _ => none

/-- The tasks a stretch of trace starts. -/
def spawned (tr : List Action) : List Task :=
  tr.filterMap fun a =>
    match a with
    | Action.spawn t => some t
    | _ => none

/-- The subscriptions a stretch of trace unsubscribes, in order. -/
def unsubscribed (tr : List Action) : List SubId :=
  tr.filterMap fun a =>
    match a with
    | Action.unsubscribe s => some s
    | _ => none

/-- The subscriptions whose error channel a stretch of trace polls, in order. -/
def polled (tr : List Action) : List SubId :=
  tr.filterMap fun a =>
    match a with
    | Action.pollErr s => some s
    | _ => none

/-- In this call of `WatchX`, the contracts `pre` were subscribed and the
subscribe on the next contract `c` then failed with `e`: `c` is the first
failing instance in list order. -/
def FirstFailure (remote : Remote) (call : Call) (w : Watcher) (wd : World)
    (pre : List Addr) (c : Addr) (e : Err) : Prop :=
  ∃ post w1 wd1, w.contracts = pre ++ c :: post ∧
    watchLoop remote call pre w wd = (none, w1, wd1) ∧ remote c call wd1 = some e

/-! ## Concrete oracles and inputs used to instantiate the theorems -/

/-- Every underlying subscribe succeeds. -/
def remoteOk : Remote := fun _ _ _ => none

/-- The subscribe on the contract `bad` fails with `e`, every other succeeds. -/
def remoteFailAt (bad : Addr) (e : Err) : Remote :=
  fun c _ _ => if c = bad then some e else none

def world0 : World := { nextSub := 0, trace := [] }

def call0 : Call := { opts := 0, sink := 5, filters := [] }

/-- Nothing is ready: no item, no quit, no error. -/
def obsIdle : Obs :=
  { recv := fun _ => none, quit := false, errs := fun _ => none, pickQuit := false }

/-- Only the quit channel is ready. -/
def obsQuit : Obs :=
  { recv := fun _ => none, quit := true, errs := fun _ => none, pickQuit := false }

/-- Only the error channel of the subscription `bad` is ready, with the value `v`. -/
def obsErr (bad : SubId) (v : Option Err) : Obs :=
  { recv := fun _ => none, quit := false,
    errs := fun s => if s = bad then some v else none, pickQuit := false }

/-- The sends of the background task in a stretch of trace. -/
def forwarded (tr : List Action) : List (ChanId × Evt) :=
  tr.filterMap fun a =>
    match a with
    | Action.forward ch e => some (ch, e)
    | _ => none

/-- The events the subscriptions `subs` emit in a sequence of operations. -/
def emittedBy (subs : List SubId) (ops : List Op) : List Evt :=
  ops.filterMap fun op =>
    match op with
    | Op.emit s e => if s ∈ subs then some e else none
    | _ => none

/-- The operation opens subscriptions that deliver to the channel `ch`. -/
def Op.usesSink (ch : ChanId) : Op → Prop
  | Op.watch _ call => call.sink = ch
  | _ => False

/-- Handles in the trace were handed out by the counter. -/
def World.Fresh (wd : World) : Prop :=
  ∀ s ∈ opened wd.trace, s < wd.nextSub

/-- A second set of call arguments, with its own sink. -/
def call1 : Call := { opts := 0, sink := 6, filters := [] }

/-- First of two successful calls on a watcher over one contract. -/
def firstCall : WatchResult := WatchX remoteOk call0 (NewWatcher [10]) world0

/-- Second of two successful calls on the same watcher. -/
def secondCall : WatchResult := WatchX remoteOk call1 firstCall.watcher firstCall.world

/-- A later, third successful call on the same watcher. -/
def thirdCall : WatchResult := WatchX remoteOk call0 secondCall.watcher secondCall.world

/-! ## The template fragments that render the filter parameters -/

/-- One input of the normalized event (`abi.Argument`); `Ty` is its field `Type`. -/
structure Argument (T : Type) where
  Name : String
  Ty : T
  Indexed : Bool

/-- The fragment of template line 112
`{{range .Normalized.Inputs}}{{if .Indexed}}, {{.Name}} []{{bindtype .Type $structs}}{{end}}{{end}}`.
The template function `bindtype` and the struct table are parameters. -/
def renderFilterParams {T S : Type} (bindtype : T → S → String) (structs : S) :
    List (Argument T) → String
  | [] => ""
  | a :: rest =>
    (if a.Indexed then ", " ++ a.Name ++ " []" ++ bindtype a.Ty structs else "") ++
      renderFilterParams bindtype structs rest

/-- The fragment of template lines 117-119
`{{range .Normalized.Inputs}}{{if .Indexed}}⏎{{.Name}},⏎{{end}}{{end}}`,
with the line breaks and indentation of the template. -/
def renderFilterArgs {T : Type} : List (Argument T) → String
  | [] => ""
  | a :: rest =>
    (if a.Indexed then "\n\t\t\t\t\t" ++ a.Name ++ ",\n\t\t\t\t\t" else "") ++
      renderFilterArgs rest

/-- Template line 112: the signature of the watcher's `WatchX`. -/
def renderWatchSignature {T S : Type} (bindtype : T → S → String) (structs : S)
    (contractType eventName : String) (inputs : List (Argument T)) : String :=
  "func (w *" ++ contractType ++ "Watcher) Watch" ++ eventName ++
    "(opts *bind.WatchOpts, sink chan<- *" ++ contractType ++ eventName ++
    renderFilterParams bindtype structs inputs ++ ") (event.Subscription, error) \x7b"

/-- Template lines 114-120: the call of `WatchX` on one underlying contract. -/
def renderUnderlyingCall {T : Type} (eventName : String) (inputs : List (Argument T)) :
    String :=
  "sub, err := c.Watch" ++ eventName ++ "(\n\t\t\t\t\topts,\n\t\t\t\t\tsink,\n\t\t\t\t\t" ++
    renderFilterArgs inputs ++ "\n\t\t\t\t)"

/-- The indexed inputs, in their original order. -/
def indexedInputs {T : Type} (inputs : List (Argument T)) : List (Argument T) :=
  inputs.filter fun a => a.Indexed

/-- The names of the filter parameters as the specification gives them: the names of
the indexed inputs, in their original order. -/
def filterNames {T : Type} (inputs : List (Argument T)) : List String :=
  (indexedInputs inputs).map fun a => a.Name

/-- The declaration of one filter parameter: its name and a slice of the
mapped type. -/
def paramDecl {T S : Type} (bindtype : T → S → String) (structs : S) (a : Argument T) :
    String :=
  ", " ++ a.Name ++ " []" ++ bindtype a.Ty structs

/-- One argument passed to the underlying call, as laid out by the template. -/
def argText (name : String) : String :=
  "\n\t\t\t\t\t" ++ name ++ ",\n\t\t\t\t\t"

/-! ## Basic facts about the loops -/

theorem unsubscribeLoop_eq (l : List SubId) (wd : World) :
    unsubscribeLoop l wd =
      { nextSub := wd.nextSub, trace := wd.trace ++ l.map Action.unsubscribe } := by
  induction l generalizing wd with
  | nil => simp [unsubscribeLoop]
  | cons s rest ih => simp [unsubscribeLoop, ih, World.log]

theorem unsubscribeX_eq (w : Watcher) (wd : World) :
    unsubscribeX w wd =
      { nextSub := wd.nextSub,
        trace := wd.trace ++ w.subscriptionsForX.map Action.unsubscribe } :=
  unsubscribeLoop_eq _ _

theorem watchLoop_none (remote : Remote) (call : Call) (cs : List Addr) (w : Watcher)
    (wd : World) (w1 : Watcher) (wd1 : World)
    (h : watchLoop remote call cs w wd = (none, w1, wd1)) :
    w1 = { w with subscriptionsForX := w.subscriptionsForX ++ freshSubs wd cs.length } ∧
    wd1 = { nextSub := wd.nextSub + cs.length,
            trace := wd.trace ++ openActions call cs wd } := by
  induction cs generalizing w wd with
  | nil =>
    simp [watchLoop] at h
    obtain ⟨rfl, rfl⟩ := h
    simp [freshSubs, openActions]
  | cons c rest ih =>
    unfold watchLoop at h
    cases hr : remote c call wd with
    | some e => simp [hr] at h
    | none =>
      simp only [hr] at h
      obtain ⟨h1, h2⟩ := ih _ _ h
      subst h1 h2
      constructor
      · simp [freshSubs, List.range'_succ]
      · simp [freshSubs, openActions, List.range'_succ, Nat.add_comm, Nat.add_left_comm]

theorem watchLoop_append (remote : Remote) (call : Call) (pre post : List Addr)
    (w : Watcher) (wd : World) :
    watchLoop remote call (pre ++ post) w wd =
      match watchLoop remote call pre w wd with
      | (some e, w1, wd1) => (some e, w1, wd1)
      | (none, w1, wd1) => watchLoop remote call post w1 wd1 := by
  induction pre generalizing w wd with
  | nil => simp [watchLoop]
  | cons c rest ih =>
    simp only [List.cons_append, watchLoop]
    cases hr : remote c call wd with
    | some e => simp
    | none => simpa using ih _ _

theorem watchLoop_some (remote : Remote) (call : Call) (cs : List Addr) (w : Watcher)
    (wd : World) (e : Err) (w1 : Watcher) (wd1 : World)
    (h : watchLoop remote call cs w wd = (some e, w1, wd1)) :
    ∃ pre c post w0 wd0, cs = pre ++ c :: post ∧
      watchLoop remote call pre w wd = (none, w0, wd0) ∧
      remote c call wd0 = some e ∧ w1 = w0 ∧
      wd1 = unsubscribeX w0 (wd0.log (Action.subscribeFailed c call e)) := by
  induction cs generalizing w wd with
  | nil => simp [watchLoop] at h
  | cons c rest ih =>
    unfold watchLoop at h
    cases hr : remote c call wd with
    | some e1 =>
      simp only [hr] at h
      simp only [Prod.mk.injEq, Option.some.injEq] at h
      obtain ⟨rfl, rfl, rfl⟩ := h
      exact ⟨[], c, rest, w, wd, rfl, rfl, hr, rfl, rfl⟩
    | none =>
      simp only [hr] at h
      obtain ⟨pre, c1, post, w0, wd0, hcs, hpre, hf, hw, hwd⟩ := ih _ _ h
      refine ⟨c :: pre, c1, post, w0, wd0, by simp [hcs], ?_, hf, hw, hwd⟩
      simp [watchLoop, hr, hpre]

theorem newActions_append (wd : World) (n : Nat) (l : List Action) :
    newActions wd { nextSub := n, trace := wd.trace ++ l } = l := by
  simp [newActions]

theorem zipWith_subscribed_facts (call : Call) (cs : List Addr) (ss : List SubId)
    (h : cs.length = ss.length) :
    opened (List.zipWith (fun c s => Action.subscribed c call s) cs ss) = ss ∧
    attempted (List.zipWith (fun c s => Action.subscribed c call s) cs ss) = cs ∧
    spawned (List.zipWith (fun c s => Action.subscribed c call s) cs ss) = [] ∧
    unsubscribed (List.zipWith (fun c s => Action.subscribed c call s) cs ss) = [] := by
  induction cs generalizing ss with
  | nil =>
    cases ss with
    | nil => simp [opened, attempted, spawned, unsubscribed]
    | cons s ss => simp at h
  | cons c cs ih =>
    cases ss with
    | nil => simp at h
    | cons s ss =>
      have h1 : cs.length = ss.length := by simpa using h
      obtain ⟨i1, i2, i3, i4⟩ := ih ss h1
      simp only [opened, attempted, spawned, unsubscribed] at i1 i2 i3 i4
      simp [opened, attempted, spawned, unsubscribed, i1, i2, i3, i4]

theorem openActions_facts (call : Call) (cs : List Addr) (wd : World) :
    opened (openActions call cs wd) = freshSubs wd cs.length ∧
    attempted (openActions call cs wd) = cs ∧
    spawned (openActions call cs wd) = [] ∧
    unsubscribed (openActions call cs wd) = [] :=
  zipWith_subscribed_facts call cs _ (by simp [freshSubs])

theorem openActions_length (call : Call) (cs : List Addr) (wd : World) :
    (openActions call cs wd).length = cs.length := by
  simp [openActions, freshSubs]

theorem map_unsubscribe_facts (l : List SubId) :
    opened (l.map Action.unsubscribe) = [] ∧
    attempted (l.map Action.unsubscribe) = [] ∧
    spawned (l.map Action.unsubscribe) = [] ∧
    unsubscribed (l.map Action.unsubscribe) = l := by
  induction l with
  | nil => simp [opened, attempted, spawned, unsubscribed]
  | cons s l ih =>
    obtain ⟨i1, i2, i3, i4⟩ := ih
    simp only [opened, attempted, spawned, unsubscribed] at i1 i2 i3 i4
    simp [opened, attempted, spawned, unsubscribed, i1, i2, i3, i4]

theorem unsubscribed_map (l : List SubId) : unsubscribed (l.map Action.unsubscribe) = l :=
  (map_unsubscribe_facts l).2.2.2

/-- The result of `WatchX` when the subscribe on `c` fails after those on
`pre` succeeded. -/
theorem WatchX_failure_eq (remote : Remote) (call : Call) (w : Watcher) (wd : World)
    (pre post : List Addr) (c : Addr) (e : Err) (w1 : Watcher) (wd1 : World)
    (hc : w.contracts = pre ++ c :: post)
    (hpre : watchLoop remote call pre w wd = (none, w1, wd1))
    (hfail : remote c call wd1 = some e) :
    WatchX remote call w wd =
      { sub := none, err := some e,
        watcher :=
          { w with subscriptionsForX := w.subscriptionsForX ++ freshSubs wd pre.length },
        world :=
          { nextSub := wd.nextSub + pre.length,
            trace := wd.trace ++ (openActions call pre wd ++
              Action.subscribeFailed c call e ::
                (w.subscriptionsForX ++ freshSubs wd pre.length).map Action.unsubscribe) } } := by
  obtain ⟨h1, h2⟩ := watchLoop_none remote call pre w wd w1 wd1 hpre
  subst h1
  subst h2
  unfold WatchX
  rw [hc, watchLoop_append, hpre]
  simp only [watchLoop, hfail, unsubscribeX_eq, World.log]
  simp
  exact hc

/-- The result of `WatchX` when every subscribe succeeds. -/
theorem WatchX_success_eq (remote : Remote) (call : Call) (w : Watcher) (wd : World)
    (w1 : Watcher) (wd1 : World)
    (h : watchLoop remote call w.contracts w wd = (none, w1, wd1)) :
    WatchX remote call w wd =
      { sub := some { sink := call.sink }, err := none,
        watcher :=
          { w with
            subscriptionsForX := w.subscriptionsForX ++ freshSubs wd w.contracts.length },
        world :=
          { nextSub := wd.nextSub + w.contracts.length,
            trace := wd.trace ++ (openActions call w.contracts wd ++
              [Action.spawn { sink := call.sink }]) } } := by
  obtain ⟨h1, h2⟩ := watchLoop_none remote call w.contracts w wd w1 wd1 h
  subst h1
  subst h2
  unfold WatchX
  rw [h]
  simp [World.log]

/-- The loop of `WatchX` either fails at a first contract or subscribes all. -/
theorem WatchX_cases (remote : Remote) (call : Call) (w : Watcher) (wd : World) :
    (∃ pre c e, FirstFailure remote call w wd pre c e) ∨
    (∃ w1 wd1, watchLoop remote call w.contracts w wd = (none, w1, wd1)) := by
  rcases hl : watchLoop remote call w.contracts w wd with ⟨o, w1, wd1⟩
  cases o with
  | none => exact Or.inr ⟨w1, wd1, rfl⟩
  | some e =>
    obtain ⟨pre, c, post, w0, wd0, hcs, hpre, hf, -, -⟩ :=
      watchLoop_some remote call _ w wd e w1 wd1 hl
    exact Or.inl ⟨pre, c, e, post, w0, wd0, hcs, hpre, hf⟩

/-- The subscriptions a failing `WatchX` opens. -/
theorem WatchX_failure_opened (remote : Remote) (call : Call) (w : Watcher)
    (wd : World) (pre post : List Addr) (c : Addr) (e : Err) (w1 : Watcher) (wd1 : World)
    (hc : w.contracts = pre ++ c :: post)
    (hpre : watchLoop remote call pre w wd = (none, w1, wd1))
    (hfail : remote c call wd1 = some e) :
    opened (newActions wd (WatchX remote call w wd).world) = freshSubs wd pre.length := by
  rw [WatchX_failure_eq remote call w wd pre post c e w1 wd1 hc hpre hfail]
  simp only [newActions_append]
  obtain ⟨o1, -, -, -⟩ := openActions_facts call pre wd
  obtain ⟨u1, -, -, -⟩ := map_unsubscribe_facts (w.subscriptionsForX ++ freshSubs wd pre.length)
  simp only [opened] at o1 u1
  simp [opened, List.filterMap_append, o1, u1]

/-! ## Subscribe failures (C1, C2) -/

/-- C1. When, in a call of `WatchX`, the subscribe on the contract `c` fails
after the subscribes on the contracts `pre` listed before it succeeded, the
call returns that error, it has opened exactly one fresh subscription per
contract of `pre`, and `Unsubscribe` is called on every subscription opened
during the call after the failed attempt and before the call returns. -/
theorem WatchX_failure_unsubscribes_opened (remote : Remote) (call : Call) (w : Watcher)
    (wd : World) (pre post : List Addr) (c : Addr) (e : Err) (w1 : Watcher) (wd1 : World)
    (hc : w.contracts = pre ++ c :: post)
    (hpre : watchLoop remote call pre w wd = (none, w1, wd1))
    (hfail : remote c call wd1 = some e) :
    (WatchX remote call w wd).err = some e ∧
    opened (newActions wd (WatchX remote call w wd).world) = freshSubs wd pre.length ∧
    (freshSubs wd pre.length).length = pre.length ∧
    (newActions wd (WatchX remote call w wd).world).take (pre.length + 1) =
      openActions call pre wd ++ [Action.subscribeFailed c call e] ∧
    ∀ s ∈ opened (newActions wd (WatchX remote call w wd).world),
      Action.unsubscribe s ∈
        (newActions wd (WatchX remote call w wd).world).drop (pre.length + 1) := by
  rw [WatchX_failure_eq remote call w wd pre post c e w1 wd1 hc hpre hfail]
  simp only [newActions_append]
  obtain ⟨o1, -, -, -⟩ := openActions_facts call pre wd
  obtain ⟨u1, -, -, -⟩ := map_unsubscribe_facts (w.subscriptionsForX ++ freshSubs wd pre.length)
  have hlen := openActions_length call pre wd
  have hop : opened (openActions call pre wd ++ Action.subscribeFailed c call e ::
      (w.subscriptionsForX ++ freshSubs wd pre.length).map Action.unsubscribe) =
      freshSubs wd pre.length := by
    simp only [opened] at o1 u1
    simp [opened, List.filterMap_append, o1, u1]
  have hsplit : openActions call pre wd ++ Action.subscribeFailed c call e ::
      (w.subscriptionsForX ++ freshSubs wd pre.length).map Action.unsubscribe =
      (openActions call pre wd ++ [Action.subscribeFailed c call e]) ++
      (w.subscriptionsForX ++ freshSubs wd pre.length).map Action.unsubscribe := by
    simp
  have hl2 : (openActions call pre wd ++ [Action.subscribeFailed c call e]).length =
      pre.length + 1 := by simp [hlen]
  refine ⟨trivial, hop, by simp [freshSubs], ?_, ?_⟩
  · rw [hsplit, ← hl2, List.take_left]
  · intro s hs
    rw [hop] at hs
    rw [hsplit, ← hl2, List.drop_left]
    simp [hs]

/-- Instance of C1 with three contracts, the subscribe on the second failing. -/
theorem WatchX_failure_unsubscribes_opened_witness :
    (NewWatcher [10, 11, 12]).contracts = [10] ++ 11 :: [12] ∧
    (WatchX (remoteFailAt 11 7) call0 (NewWatcher [10, 11, 12]) world0).err = some 7 ∧
    opened (newActions world0
      (WatchX (remoteFailAt 11 7) call0 (NewWatcher [10, 11, 12]) world0).world) = [0] ∧
    Action.unsubscribe 0 ∈ (newActions world0
      (WatchX (remoteFailAt 11 7) call0 (NewWatcher [10, 11, 12]) world0).world).drop 2 := by
  have h := WatchX_failure_unsubscribes_opened (remoteFailAt 11 7) call0
    (NewWatcher [10, 11, 12]) world0 [10] [12] 11 7
    { contracts := [10, 11, 12], subscriptionsForX := [0], sinkForX := none }
    { nextSub := 1, trace := [Action.subscribed 10 call0 0] } rfl rfl rfl
  refine ⟨rfl, h.1, h.2.1, ?_⟩
  exact h.2.2.2.2 0 (by rw [h.2.1]; decide)

/-- C2. `WatchX` is all-or-nothing.  It returns a non-nil error and a nil
subscription exactly when the subscribe on some contract fails; then the error
is that of the first failing contract in list order, the contracts attempted
are those up to and including the failing one, and no task is started.  When
no subscribe fails it returns a non-nil subscription and a nil error, having
attempted every contract and started one task. -/
theorem WatchX_all_or_nothing (remote : Remote) (call : Call) (w : Watcher) (wd : World) :
    (((WatchX remote call w wd).err ≠ none ∧ (WatchX remote call w wd).sub = none) ↔
      ∃ pre c e, FirstFailure remote call w wd pre c e) ∧
    (∀ pre c e, FirstFailure remote call w wd pre c e →
      (WatchX remote call w wd).err = some e ∧
      (WatchX remote call w wd).sub = none ∧
      attempted (newActions wd (WatchX remote call w wd).world) = pre ++ [c] ∧
      spawned (newActions wd (WatchX remote call w wd).world) = []) ∧
    ((¬ ∃ pre c e, FirstFailure remote call w wd pre c e) →
      (WatchX remote call w wd).sub = some { sink := call.sink } ∧
      (WatchX remote call w wd).err = none ∧
      attempted (newActions wd (WatchX remote call w wd).world) = w.contracts ∧
      spawned (newActions wd (WatchX remote call w wd).world) = [{ sink := call.sink }]) := by
  have hfail : ∀ pre c e, FirstFailure remote call w wd pre c e →
      (WatchX remote call w wd).err = some e ∧
      (WatchX remote call w wd).sub = none ∧
      attempted (newActions wd (WatchX remote call w wd).world) = pre ++ [c] ∧
      spawned (newActions wd (WatchX remote call w wd).world) = [] := by
    rintro pre c e ⟨post, w1, wd1, hc, hpre, hf⟩
    rw [WatchX_failure_eq remote call w wd pre post c e w1 wd1 hc hpre hf]
    simp only [newActions_append]
    obtain ⟨-, o2, o3, -⟩ := openActions_facts call pre wd
    obtain ⟨-, u2, u3, -⟩ :=
      map_unsubscribe_facts (w.subscriptionsForX ++ freshSubs wd pre.length)
    simp only [attempted, spawned] at o2 o3 u2 u3
    refine ⟨trivial, trivial, ?_, ?_⟩
    · simp [attempted, List.filterMap_append, o2, u2]
    · simp [spawned, List.filterMap_append, o3, u3]
  have hok : ∀ w1 wd1, watchLoop remote call w.contracts w wd = (none, w1, wd1) →
      (WatchX remote call w wd).sub = some { sink := call.sink } ∧
      (WatchX remote call w wd).err = none ∧
      attempted (newActions wd (WatchX remote call w wd).world) = w.contracts ∧
      spawned (newActions wd (WatchX remote call w wd).world) = [{ sink := call.sink }] := by
    intro w1 wd1 h
    rw [WatchX_success_eq remote call w wd w1 wd1 h]
    simp only [newActions_append]
    obtain ⟨-, o2, o3, -⟩ := openActions_facts call w.contracts wd
    simp only [attempted, spawned] at o2 o3
    refine ⟨trivial, trivial, ?_, ?_⟩
    · simp [attempted, List.filterMap_append, o2]
    · simp [spawned, List.filterMap_append, o3]
  refine ⟨⟨?_, ?_⟩, hfail, ?_⟩
  · rintro ⟨he, -⟩
    rcases WatchX_cases remote call w wd with h | ⟨w1, wd1, h⟩
    · exact h
    · exact absurd (hok w1 wd1 h).2.1 he
  · rintro ⟨pre, c, e, h⟩
    obtain ⟨h1, h2, -, -⟩ := hfail pre c e h
    exact ⟨by simp [h1], h2⟩
  · intro hno
    rcases WatchX_cases remote call w wd with h | ⟨w1, wd1, h⟩
    · exact absurd h hno
    · exact hok w1 wd1 h

/-! ## One iteration of the background loop (C3, C4, C5) -/

theorem pollErrs_none (obs : Obs) (l : List SubId) (wd : World)
    (h : ∀ x ∈ l, obs.errs x = none) :
    pollErrs obs l wd =
      (none, { nextSub := wd.nextSub, trace := wd.trace ++ l.map Action.pollErr }) := by
  induction l generalizing wd with
  | nil => simp [pollErrs]
  | cons s rest ih =>
    have hs : obs.errs s = none := h s (by simp)
    have hrest : ∀ x ∈ rest, obs.errs x = none := fun x hx => h x (by simp [hx])
    simp [pollErrs, hs, ih _ hrest, World.log]

theorem pollErrs_some (obs : Obs) (pre post : List SubId) (s : SubId) (v : Option Err)
    (wd : World) (hpre : ∀ x ∈ pre, obs.errs x = none) (hs : obs.errs s = some v) :
    pollErrs obs (pre ++ s :: post) wd =
      (some v,
        { nextSub := wd.nextSub, trace := wd.trace ++ (pre ++ [s]).map Action.pollErr }) := by
  induction pre generalizing wd with
  | nil => simp [pollErrs, hs, World.log]
  | cons p rest ih =>
    have hp : obs.errs p = none := hpre p (by simp)
    have hrest : ∀ x ∈ rest, obs.errs x = none := fun x hx => hpre x (by simp [hx])
    simp [pollErrs, hp, ih _ hrest, World.log]

/-- The inner loop polls a prefix of the list and does nothing else. -/
theorem pollErrs_trace (obs : Obs) (l : List SubId) (wd : World) :
    ∃ k, (pollErrs obs l wd).2 =
      { nextSub := wd.nextSub, trace := wd.trace ++ (l.take k).map Action.pollErr } := by
  induction l generalizing wd with
  | nil => exact ⟨0, by simp [pollErrs]⟩
  | cons s rest ih =>
    cases hs : obs.errs s with
    | some v => exact ⟨1, by simp [pollErrs, hs, World.log]⟩
    | none =>
      obtain ⟨k, hk⟩ := ih (wd.log (Action.pollErr s))
      refine ⟨k + 1, ?_⟩
      simp only [pollErrs, hs, hk]
      simp [World.log]

theorem taskStep_quit (obs : Obs) (t : Task) (w : Watcher) (wd : World)
    (hrecv : w.sinkForX.bind obs.recv = none) (hquit : obs.quit = true) :
    taskStep obs t w wd =
      { outcome := Outcome.done none, watcher := w,
        world :=
          { nextSub := wd.nextSub,
            trace := wd.trace ++ w.subscriptionsForX.map Action.unsubscribe } } := by
  simp [taskStep, hrecv, hquit, unsubscribeX_eq]

theorem taskStep_default (obs : Obs) (t : Task) (w : Watcher) (wd : World)
    (hrecv : w.sinkForX.bind obs.recv = none) (hquit : obs.quit = false) :
    taskStep obs t w wd =
      match pollErrs obs w.subscriptionsForX wd with
      | (some v, wd1) => { outcome := Outcome.done v, watcher := w, world := wd1 }
      | (none, wd1) => { outcome := Outcome.again, watcher := w, world := wd1 } := by
  simp [taskStep, hrecv, hquit]

theorem taskStep_watcher (obs : Obs) (t : Task) (w : Watcher) (wd : World) :
    (taskStep obs t w wd).watcher = w := by
  unfold taskStep
  simp only
  split
  · split <;> rfl
  · rfl
  · rfl
  · split <;> rfl

/-- C5. In an iteration of the background loop in which neither an item on
`sinkForX` nor the quit signal is ready, the task polls the error channels of
the subscriptions of the list in list order without blocking.  If one has a
value ready, the task polls up to and including the first such subscription
and returns the value it received; if none has, it polls all of them and goes
round the loop again with the watcher unchanged. -/
theorem taskStep_polls_errors_in_order (obs : Obs) (t : Task) (w : Watcher) (wd : World)
    (hrecv : w.sinkForX.bind obs.recv = none) (hquit : obs.quit = false) :
    (∀ pre s post v, w.subscriptionsForX = pre ++ s :: post →
      (∀ x ∈ pre, obs.errs x = none) → obs.errs s = some v →
      taskStep obs t w wd =
        { outcome := Outcome.done v, watcher := w,
          world :=
            { nextSub := wd.nextSub,
              trace := wd.trace ++ (pre ++ [s]).map Action.pollErr } }) ∧
    ((∀ x ∈ w.subscriptionsForX, obs.errs x = none) →
      taskStep obs t w wd =
        { outcome := Outcome.again, watcher := w,
          world :=
            { nextSub := wd.nextSub,
              trace := wd.trace ++ w.subscriptionsForX.map Action.pollErr } }) := by
  constructor
  · intro pre s post v hl hpre hs
    rw [taskStep_default obs t w wd hrecv hquit, hl, pollErrs_some obs pre post s v wd hpre hs]
  · intro hall
    rw [taskStep_default obs t w wd hrecv hquit, pollErrs_none obs _ wd hall]

/-- Instance of C5: three subscriptions, the second and the third with an error
ready; the task polls the first two and returns the error of the second. -/
theorem taskStep_polls_errors_in_order_witness :
    taskStep
        { recv := fun _ => none, quit := false,
          errs := fun s => if s = 0 then none else some (some (s + 40)), pickQuit := false }
        { sink := 5 }
        { contracts := [10, 11, 12], subscriptionsForX := [0, 1, 2], sinkForX := none }
        world0 =
      { outcome := Outcome.done (some 41),
        watcher := { contracts := [10, 11, 12], subscriptionsForX := [0, 1, 2], sinkForX := none },
        world := { nextSub := 0, trace := [Action.pollErr 0, Action.pollErr 1] } } ∧
    taskStep obsIdle { sink := 5 }
        { contracts := [10, 11, 12], subscriptionsForX := [0, 1, 2], sinkForX := none }
        world0 =
      { outcome := Outcome.again,
        watcher := { contracts := [10, 11, 12], subscriptionsForX := [0, 1, 2], sinkForX := none },
        world :=
          { nextSub := 0,
            trace := [Action.pollErr 0, Action.pollErr 1, Action.pollErr 2] } } :=
  ⟨(taskStep_polls_errors_in_order _ { sink := 5 }
      { contracts := [10, 11, 12], subscriptionsForX := [0, 1, 2], sinkForX := none }
      world0 rfl rfl).1 [0] 1 [2] (some 41) rfl (by decide) rfl,
   (taskStep_polls_errors_in_order obsIdle { sink := 5 }
      { contracts := [10, 11, 12], subscriptionsForX := [0, 1, 2], sinkForX := none }
      world0 rfl rfl).2 (fun _ _ => rfl)⟩

/-! ## What the operations do to the watcher and to the trace -/

theorem mem_zipWith_subscribed (call : Call) (cs : List Addr) (ss : List SubId) (a : Action)
    (h : a ∈ List.zipWith (fun c s => Action.subscribed c call s) cs ss) :
    ∃ c s, a = Action.subscribed c call s := by
  induction cs generalizing ss with
  | nil => simp at h
  | cons c cs ih =>
    cases ss with
    | nil => simp at h
    | cons s ss =>
      simp only [List.zipWith_cons_cons, List.mem_cons] at h
      rcases h with h | h
      · exact ⟨c, s, h⟩
      · exact ih ss h

/-- `WatchX` appends to the subscription list the subscriptions it opened and
touches no other field. -/
theorem WatchX_watcher (remote : Remote) (call : Call) (w : Watcher) (wd : World) :
    ∃ l, (WatchX remote call w wd).watcher =
        { w with subscriptionsForX := w.subscriptionsForX ++ l } ∧
      opened (newActions wd (WatchX remote call w wd).world) = l := by
  rcases WatchX_cases remote call w wd with ⟨pre, c, e, post, w1, wd1, hc, hpre, hf⟩ | ⟨w1, wd1, h⟩
  · refine ⟨freshSubs wd pre.length, ?_, ?_⟩
    · rw [WatchX_failure_eq remote call w wd pre post c e w1 wd1 hc hpre hf]
    · exact (WatchX_failure_opened remote call w wd pre post c e w1 wd1
        hc hpre hf)
  · refine ⟨freshSubs wd w.contracts.length, ?_, ?_⟩
    · rw [WatchX_success_eq remote call w wd w1 wd1 h]
    · rw [WatchX_success_eq remote call w wd w1 wd1 h]
      simp only [newActions_append]
      obtain ⟨o1, -, -, -⟩ := openActions_facts call w.contracts wd
      simp only [opened] at o1
      simp [opened, List.filterMap_append, o1]

/-- `WatchX` only appends to the trace, and what it appends are subscribes
made with the arguments of the call, unsubscribes and at most one task start. -/
theorem WatchX_trace (remote : Remote) (call : Call) (w : Watcher) (wd : World) :
    ∃ l, (WatchX remote call w wd).world.trace = wd.trace ++ l ∧
      ∀ a ∈ l, (∃ c s, a = Action.subscribed c call s) ∨
        (∃ c e, a = Action.subscribeFailed c call e) ∨
        (∃ s, a = Action.unsubscribe s) ∨ (∃ t, a = Action.spawn t) := by
  rcases WatchX_cases remote call w wd with ⟨pre, c, e, post, w1, wd1, hc, hpre, hf⟩ | ⟨w1, wd1, h⟩
  · rw [WatchX_failure_eq remote call w wd pre post c e w1 wd1 hc hpre hf]
    refine ⟨_, rfl, ?_⟩
    intro a ha
    simp only [List.mem_append, List.mem_cons, List.mem_map] at ha
    rcases ha with ha | ha | ⟨s, -, hs⟩
    · exact Or.inl (mem_zipWith_subscribed call _ _ a ha)
    · exact Or.inr (Or.inl ⟨c, e, ha⟩)
    · exact Or.inr (Or.inr (Or.inl ⟨s, hs.symm⟩))
  · rw [WatchX_success_eq remote call w wd w1 wd1 h]
    refine ⟨_, rfl, ?_⟩
    intro a ha
    simp only [List.mem_append, List.mem_singleton] at ha
    rcases ha with ha | ha
    · exact Or.inl (mem_zipWith_subscribed call _ _ a ha)
    · exact Or.inr (Or.inr (Or.inr ⟨_, ha⟩))

/-- With a nil `sinkForX`, an iteration of the background loop only appends
unsubscribes and polls to the trace. -/
theorem taskStep_trace (obs : Obs) (t : Task) (w : Watcher) (wd : World)
    (h : w.sinkForX = none) :
    ∃ l, (taskStep obs t w wd).world.trace = wd.trace ++ l ∧
      ∀ a ∈ l, (∃ s, a = Action.unsubscribe s) ∨ (∃ s, a = Action.pollErr s) := by
  have hrecv : w.sinkForX.bind obs.recv = none := by simp [h]
  cases hq : obs.quit with
  | true =>
    rw [taskStep_quit obs t w wd hrecv hq]
    refine ⟨_, rfl, ?_⟩
    intro a ha
    simp only [List.mem_map] at ha
    obtain ⟨s, -, hs⟩ := ha
    exact Or.inl ⟨s, hs.symm⟩
  | false =>
    rw [taskStep_default obs t w wd hrecv hq]
    obtain ⟨k, hk⟩ := pollErrs_trace obs w.subscriptionsForX wd
    have hmem : ∀ a ∈ (w.subscriptionsForX.take k).map Action.pollErr,
        (∃ s, a = Action.unsubscribe s) ∨ (∃ s, a = Action.pollErr s) := by
      intro a ha
      simp only [List.mem_map] at ha
      obtain ⟨s, -, hs⟩ := ha
      exact Or.inr ⟨s, hs.symm⟩
    rcases hp : pollErrs obs w.subscriptionsForX wd with ⟨o, wd1⟩
    rw [hp] at hk
    simp only at hk
    subst hk
    cases o with
    | none => exact ⟨_, rfl, hmem⟩
    | some v => exact ⟨_, rfl, hmem⟩

/-- Every operation leaves `contracts` and `sinkForX` alone and only appends
to `subscriptionsForX`. -/
theorem applyOp_watcher (op : Op) (st : State) :
    ∃ l, (applyOp op st).1 =
      { st.1 with subscriptionsForX := st.1.subscriptionsForX ++ l } := by
  cases op with
  | watch remote call =>
    obtain ⟨l, hl, -⟩ := WatchX_watcher remote call st.1 st.2
    exact ⟨l, hl⟩
  | step obs t => exact ⟨[], by simp [applyOp, taskStep_watcher]⟩
  | unsub => exact ⟨[], by simp [applyOp]⟩
  | emit s e =>
    refine ⟨[], ?_⟩
    simp only [applyOp]
    split <;> simp

theorem run_watcher (ops : List Op) (st : State) :
    ∃ l, (run ops st).1 =
      { st.1 with subscriptionsForX := st.1.subscriptionsForX ++ l } := by
  induction ops generalizing st with
  | nil => exact ⟨[], by simp [run]⟩
  | cons op ops ih =>
    obtain ⟨l1, h1⟩ := applyOp_watcher op st
    obtain ⟨l2, h2⟩ := ih (applyOp op st)
    refine ⟨l1 ++ l2, ?_⟩
    simp only [run]
    rw [h2, h1]
    simp

theorem reachable_sinkForX (st : State) (h : Reachable st) : st.1.sinkForX = none := by
  obtain ⟨cs, wd0, ops, rfl⟩ := h
  obtain ⟨l, hl⟩ := run_watcher ops (NewWatcher cs, wd0)
  rw [hl]
  rfl

/-! ## Cancellation and error exit of the background task (C3, C4) -/

theorem WatchX_ok (remote : Remote) (call : Call) (w : Watcher) (wd : World)
    (hok : (WatchX remote call w wd).err = none) :
    WatchX remote call w wd =
      { sub := some { sink := call.sink }, err := none,
        watcher :=
          { w with
            subscriptionsForX := w.subscriptionsForX ++ freshSubs wd w.contracts.length },
        world :=
          { nextSub := wd.nextSub + w.contracts.length,
            trace := wd.trace ++ (openActions call w.contracts wd ++
              [Action.spawn { sink := call.sink }]) } } := by
  rcases WatchX_cases remote call w wd with ⟨pre, c, e, post, w1, wd1, hc, hpre, hf⟩ | ⟨w1, wd1, h⟩
  · rw [WatchX_failure_eq remote call w wd pre post c e w1 wd1 hc hpre hf] at hok
    simp at hok
  · exact WatchX_success_eq remote call w wd w1 wd1 h

theorem WatchX_ok_opened (remote : Remote) (call : Call) (w : Watcher) (wd : World)
    (hok : (WatchX remote call w wd).err = none) :
    opened (newActions wd (WatchX remote call w wd).world) =
      freshSubs wd w.contracts.length := by
  rw [WatchX_ok remote call w wd hok]
  simp only [newActions_append]
  obtain ⟨o1, -, -, -⟩ := openActions_facts call w.contracts wd
  simp only [opened] at o1
  simp [opened, List.filterMap_append, o1]

/-- The error exit of the background loop calls no `Unsubscribe`: whenever an
iteration returns a non-nil error, what it appended to the trace are polls. -/
theorem error_exit_only_polls (obs : Obs) (t : Task) (w : Watcher) (wd : World) (e : Err)
    (h : (taskStep obs t w wd).outcome = Outcome.done (some e)) :
    ∃ k, (taskStep obs t w wd).world.trace =
      wd.trace ++ (w.subscriptionsForX.take k).map Action.pollErr := by
  cases hrecv : w.sinkForX.bind obs.recv with
  | some evt =>
    cases hq : obs.quit with
    | true =>
      cases hp : obs.pickQuit <;> simp [taskStep, hrecv, hq, hp] at h
    | false => simp [taskStep, hrecv, hq] at h
  | none =>
    cases hq : obs.quit with
    | true =>
      rw [taskStep_quit obs t w wd hrecv hq] at h
      simp at h
    | false =>
      rw [taskStep_default obs t w wd hrecv hq]
      obtain ⟨k, hk⟩ := pollErrs_trace obs w.subscriptionsForX wd
      rcases hp : pollErrs obs w.subscriptionsForX wd with ⟨o, wd1⟩
      rw [hp] at hk
      simp only at hk
      subst hk
      cases o with
      | none => exact ⟨k, rfl⟩
      | some v => exact ⟨k, rfl⟩

/-- C3, evaluated.  A watcher over two contracts, both subscribes succeed
(subscriptions `0` and `1`).  In an iteration in which the error channel of
subscription `1` holds the error `7`, the background task polls `0` and `1` and
returns `7`: no `Unsubscribe` is called, neither on `0` nor on `1`. -/
theorem taskStep_error_exit_unsubscribes_nothing :
    (WatchX remoteOk call0 (NewWatcher [10, 11]) world0).err = none ∧
    (WatchX remoteOk call0 (NewWatcher [10, 11]) world0).watcher.subscriptionsForX = [0, 1] ∧
    (taskStep (obsErr 1 (some 7)) { sink := 5 }
      (WatchX remoteOk call0 (NewWatcher [10, 11]) world0).watcher
      (WatchX remoteOk call0 (NewWatcher [10, 11]) world0).world).outcome =
        Outcome.done (some 7) ∧
    newActions (WatchX remoteOk call0 (NewWatcher [10, 11]) world0).world
      (taskStep (obsErr 1 (some 7)) { sink := 5 }
        (WatchX remoteOk call0 (NewWatcher [10, 11]) world0).watcher
        (WatchX remoteOk call0 (NewWatcher [10, 11]) world0).world).world =
        [Action.pollErr 0, Action.pollErr 1] ∧
    unsubscribed
      (taskStep (obsErr 1 (some 7)) { sink := 5 }
        (WatchX remoteOk call0 (NewWatcher [10, 11]) world0).watcher
        (WatchX remoteOk call0 (NewWatcher [10, 11]) world0).world).world.trace = [] := by
  decide

/-- Iterations that find nothing ready only poll, and the loop goes on. -/
theorem taskLoop_idle (t : Task) (idle rest : List Obs) (w : Watcher) (wd : World)
    (hsink : w.sinkForX = none)
    (hidle : ∀ o ∈ idle, o.quit = false ∧ ∀ x ∈ w.subscriptionsForX, o.errs x = none) :
    ∃ l, unsubscribed l = [] ∧
      taskLoop t (idle ++ rest) w wd =
        taskLoop t rest w { nextSub := wd.nextSub, trace := wd.trace ++ l } := by
  induction idle generalizing wd with
  | nil => exact ⟨[], rfl, by simp⟩
  | cons o idle ih =>
    obtain ⟨hq, herr⟩ := hidle o (by simp)
    have hrecv : w.sinkForX.bind o.recv = none := by simp [hsink]
    have hstep : taskStep o t w wd =
        { outcome := Outcome.again, watcher := w,
          world :=
            { nextSub := wd.nextSub,
              trace := wd.trace ++ w.subscriptionsForX.map Action.pollErr } } := by
      rw [taskStep_default o t w wd hrecv hq, pollErrs_none o _ wd herr]
    obtain ⟨l, hl, hloop⟩ := ih
      { nextSub := wd.nextSub, trace := wd.trace ++ w.subscriptionsForX.map Action.pollErr }
      (fun o1 ho1 => hidle o1 (by simp [ho1]))
    refine ⟨w.subscriptionsForX.map Action.pollErr ++ l, ?_, ?_⟩
    · simp only [unsubscribed] at hl
      simp only [unsubscribed, List.filterMap_append, hl, List.append_nil,
        List.filterMap_eq_nil_iff]
      intro a ha
      simp only [List.mem_map] at ha
      obtain ⟨s, -, rfl⟩ := ha
      rfl
    · simp only [List.append_assoc] at hloop
      simp only [List.cons_append, taskLoop, hstep]
      exact hloop

/-- C4. After a successful `WatchX` on a watcher built by `NewWatcher`, and
whatever happens afterwards (`ops`, possibly nothing at all), an iteration of
the background loop of the returned task that finds the quit signal ready
returns nil, and what it does before returning is one `Unsubscribe` per
subscription of the list, among them every one of the `N` subscriptions the
call opened.  The same holds of the loop as a whole: after any number of
iterations that found nothing ready, the iteration that finds the quit signal
makes the loop return nil, the whole list having been unsubscribed. -/
theorem cancel_unsubscribes_every_subscription (st : State) (remote : Remote) (call : Call)
    (ops : List Op) (obs : Obs) (t : Task) (r : WatchResult) (st2 : State)
    (hreach : Reachable st)
    (hr : r = WatchX remote call st.1 st.2)
    (hok : r.err = none)
    (ht : r.sub = some t)
    (hst2 : st2 = run ops (r.watcher, r.world))
    (hquit : obs.quit = true) :
    (taskStep obs t st2.1 st2.2).outcome = Outcome.done none ∧
    newActions st2.2 (taskStep obs t st2.1 st2.2).world =
      st2.1.subscriptionsForX.map Action.unsubscribe ∧
    opened (newActions st.2 r.world) = freshSubs st.2 st.1.contracts.length ∧
    (opened (newActions st.2 r.world)).length = st.1.contracts.length ∧
    (∀ s ∈ opened (newActions st.2 r.world),
      Action.unsubscribe s ∈ newActions st2.2 (taskStep obs t st2.1 st2.2).world) ∧
    ∀ idle : List Obs,
      (∀ o ∈ idle, o.quit = false ∧ ∀ x ∈ st2.1.subscriptionsForX, o.errs x = none) →
      (taskLoop t (idle ++ [obs]) st2.1 st2.2).outcome = Outcome.done none ∧
      unsubscribed (newActions st2.2 (taskLoop t (idle ++ [obs]) st2.1 st2.2).world) =
        st2.1.subscriptionsForX := by
  subst hr
  have hopen := WatchX_ok_opened remote call st.1 st.2 hok
  have hsink0 := reachable_sinkForX st hreach
  obtain ⟨l, hl⟩ := run_watcher ops
    ((WatchX remote call st.1 st.2).watcher, (WatchX remote call st.1 st.2).world)
  rw [← hst2] at hl
  rw [WatchX_ok remote call st.1 st.2 hok] at hl
  simp only at hl
  have hsink : st2.1.sinkForX = none := by rw [hl]; exact hsink0
  have hrecv : st2.1.sinkForX.bind obs.recv = none := by simp [hsink]
  have hloop : ∀ idle : List Obs,
      (∀ o ∈ idle, o.quit = false ∧ ∀ x ∈ st2.1.subscriptionsForX, o.errs x = none) →
      (taskLoop t (idle ++ [obs]) st2.1 st2.2).outcome = Outcome.done none ∧
      unsubscribed (newActions st2.2 (taskLoop t (idle ++ [obs]) st2.1 st2.2).world) =
        st2.1.subscriptionsForX := by
    intro idle hidle
    obtain ⟨l1, hl1, hrun⟩ := taskLoop_idle t idle [obs] st2.1 st2.2 hsink hidle
    rw [hrun]
    simp only [taskLoop, taskStep_quit obs t st2.1 _ hrecv hquit]
    refine ⟨trivial, ?_⟩
    rw [List.append_assoc, newActions_append]
    have hu := unsubscribed_map st2.1.subscriptionsForX
    simp only [unsubscribed] at hl1 hu
    simp only [unsubscribed, List.filterMap_append, hl1, hu, List.nil_append]
  rw [taskStep_quit obs t st2.1 st2.2 hrecv hquit]
  simp only [newActions_append]
  refine ⟨trivial, trivial, hopen, by rw [hopen]; simp [freshSubs], ?_, hloop⟩
  intro s hs
  rw [hopen] at hs
  rw [hl]
  simp [hs]

/-- Instance of C4: two contracts, cancellation before anything else happens. -/
theorem cancel_unsubscribes_every_subscription_witness :
    (taskStep obsQuit { sink := 5 }
      (WatchX remoteOk call0 (NewWatcher [10, 11]) world0).watcher
      (WatchX remoteOk call0 (NewWatcher [10, 11]) world0).world).outcome =
        Outcome.done none ∧
    newActions (WatchX remoteOk call0 (NewWatcher [10, 11]) world0).world
      (taskStep obsQuit { sink := 5 }
        (WatchX remoteOk call0 (NewWatcher [10, 11]) world0).watcher
        (WatchX remoteOk call0 (NewWatcher [10, 11]) world0).world).world =
        [Action.unsubscribe 0, Action.unsubscribe 1] := by
  have h := cancel_unsubscribes_every_subscription (NewWatcher [10, 11], world0) remoteOk
    call0 [] obsQuit { sink := 5 } (WatchX remoteOk call0 (NewWatcher [10, 11]) world0)
    ((WatchX remoteOk call0 (NewWatcher [10, 11]) world0).watcher,
      (WatchX remoteOk call0 (NewWatcher [10, 11]) world0).world)
    ⟨[10, 11], world0, [], rfl⟩ rfl rfl rfl rfl rfl
  exact ⟨h.1, h.2.1⟩

/-! ## Invariants of the watcher fields (C9, C10) -/

theorem run_cons (op : Op) (ops : List Op) (st : State) :
    run (op :: ops) st = run ops (applyOp op st) := rfl

/-- With a nil `sinkForX`, every operation only appends to the trace, and
what it appends is determined by the kind of operation. -/
theorem applyOp_trace (op : Op) (st : State) (h : st.1.sinkForX = none) :
    ∃ l, (applyOp op st).2.trace = st.2.trace ++ l ∧
      match op with
      | Op.emit s e =>
        l = match sinkOf st.2.trace s with
          | some ch => [Action.emit s ch e]
          | none => []
      | Op.watch _ call =>
        ∀ a ∈ l, (∃ c s, a = Action.subscribed c call s) ∨
          (∃ c e, a = Action.subscribeFailed c call e) ∨
          (∃ s, a = Action.unsubscribe s) ∨ (∃ t, a = Action.spawn t)
      | _ => ∀ a ∈ l, (∃ s, a = Action.unsubscribe s) ∨ (∃ s, a = Action.pollErr s) := by
  cases op with
  | watch remote call => exact WatchX_trace remote call st.1 st.2
  | step obs t => exact taskStep_trace obs t st.1 st.2 h
  | unsub =>
    refine ⟨st.1.subscriptionsForX.map Action.unsubscribe, by simp [applyOp, unsubscribeX_eq], ?_⟩
    intro a ha
    simp only [List.mem_map] at ha
    obtain ⟨s, -, hs⟩ := ha
    exact Or.inl ⟨s, hs.symm⟩
  | emit s e =>
    cases hs : sinkOf st.2.trace s with
    | some ch => exact ⟨[Action.emit s ch e], by simp [applyOp, hs, World.log], by simp [hs]⟩
    | none => exact ⟨[], by simp [applyOp, hs], by simp [hs]⟩

theorem applyOp_forwarded (op : Op) (st : State) (h : st.1.sinkForX = none) :
    ∃ l, (applyOp op st).2.trace = st.2.trace ++ l ∧ forwarded l = [] := by
  obtain ⟨l, hl, hk⟩ := applyOp_trace op st h
  refine ⟨l, hl, ?_⟩
  simp only [forwarded, List.filterMap_eq_nil_iff]
  intro a ha
  cases op with
  | watch remote call =>
    rcases hk a ha with ⟨c, s, rfl⟩ | ⟨c, e, rfl⟩ | ⟨s, rfl⟩ | ⟨t, rfl⟩ <;> rfl
  | step obs t => rcases hk a ha with ⟨s, rfl⟩ | ⟨s, rfl⟩ <;> rfl
  | unsub => rcases hk a ha with ⟨s, rfl⟩ | ⟨s, rfl⟩ <;> rfl
  | emit s e =>
    simp only at hk
    subst hk
    cases hs : sinkOf st.2.trace s with
    | some ch =>
      simp only [hs, List.mem_singleton] at ha
      subst ha
      rfl
    | none => simp [hs] at ha

theorem run_forwarded (ops : List Op) (st : State) (h : st.1.sinkForX = none) :
    ∃ l, (run ops st).2.trace = st.2.trace ++ l ∧ forwarded l = [] := by
  induction ops generalizing st with
  | nil => exact ⟨[], by simp [run], rfl⟩
  | cons op ops ih =>
    obtain ⟨l1, h1, f1⟩ := applyOp_forwarded op st h
    obtain ⟨lw, hw⟩ := applyOp_watcher op st
    have h' : (applyOp op st).1.sinkForX = none := by rw [hw]; exact h
    obtain ⟨l2, h2, f2⟩ := ih (applyOp op st) h'
    refine ⟨l1 ++ l2, ?_, ?_⟩
    · rw [run_cons, h2, h1, List.append_assoc]
    · simp only [forwarded] at f1 f2
      simp [forwarded, List.filterMap_append, f1, f2]

theorem newActions_of_append (wd wd1 : World) (l : List Action)
    (h : wd1.trace = wd.trace ++ l) : newActions wd wd1 = l := by
  simp [newActions, h]

/-- C9. The subscription list of a watcher only grows.  `NewWatcher` creates
it empty; every operation (a successful or failed `WatchX`, `unsubscribeX`,
any iteration of the background loop, a delivery) leaves a list of which the
list before is a prefix.  In particular a failed `WatchX` and a cancelled task
leave in the list exactly the subscriptions they have just unsubscribed; a
subscription once in the list is in it in every later state; and whatever is in
the list is unsubscribed again by a `WatchX` that fails, unsubscribed again by
a task that is cancelled, and polled again by a task that finds nothing
ready. -/
theorem subscriptions_only_grow :
    (∀ cs, (NewWatcher cs).subscriptionsForX = []) ∧
    (∀ (op : Op) (st : State),
      st.1.subscriptionsForX <+: (applyOp op st).1.subscriptionsForX) ∧
    (∀ (ops : List Op) (st : State),
      st.1.subscriptionsForX <+: (run ops st).1.subscriptionsForX) ∧
    (∀ remote call w wd, (WatchX remote call w wd).err ≠ none →
      unsubscribed (newActions wd (WatchX remote call w wd).world) =
        (WatchX remote call w wd).watcher.subscriptionsForX) ∧
    (∀ obs t w wd, w.sinkForX.bind obs.recv = none → obs.quit = true →
      unsubscribed (newActions wd (taskStep obs t w wd).world) =
        (taskStep obs t w wd).watcher.subscriptionsForX) ∧
    (∀ (ops : List Op) (st : State), ∀ s ∈ st.1.subscriptionsForX,
      s ∈ (run ops st).1.subscriptionsForX) ∧
    (∀ remote call w wd, ∀ s ∈ w.subscriptionsForX,
      (WatchX remote call w wd).err ≠ none →
      Action.unsubscribe s ∈ newActions wd (WatchX remote call w wd).world) ∧
    (∀ obs t w wd, ∀ s ∈ w.subscriptionsForX,
      w.sinkForX.bind obs.recv = none → obs.quit = true →
      Action.unsubscribe s ∈ newActions wd (taskStep obs t w wd).world) ∧
    (∀ obs t w wd, ∀ s ∈ w.subscriptionsForX,
      w.sinkForX.bind obs.recv = none → obs.quit = false →
      (∀ x ∈ w.subscriptionsForX, obs.errs x = none) →
      Action.pollErr s ∈ newActions wd (taskStep obs t w wd).world) := by
  have hfailed : ∀ remote call w wd, (WatchX remote call w wd).err ≠ none →
      ∃ l, (WatchX remote call w wd).watcher.subscriptionsForX = w.subscriptionsForX ++ l ∧
        ∃ pre, newActions wd (WatchX remote call w wd).world =
          pre ++ (w.subscriptionsForX ++ l).map Action.unsubscribe ∧ unsubscribed pre = [] := by
    intro remote call w wd herr
    rcases WatchX_cases remote call w wd with
      ⟨pre, c, e, post, w1, wd1, hc, hpre, hf⟩ | ⟨w1, wd1, h⟩
    · rw [WatchX_failure_eq remote call w wd pre post c e w1 wd1 hc hpre hf]
      refine ⟨freshSubs wd pre.length, rfl,
        openActions call pre wd ++ [Action.subscribeFailed c call e], ?_, ?_⟩
      · simp [newActions_append]
      · obtain ⟨-, -, -, o4⟩ := openActions_facts call pre wd
        simp only [unsubscribed] at o4
        simp [unsubscribed, List.filterMap_append, o4]
    · rw [WatchX_success_eq remote call w wd w1 wd1 h] at herr
      simp at herr
  have hgrow : ∀ (ops : List Op) (st : State),
      st.1.subscriptionsForX <+: (run ops st).1.subscriptionsForX := by
    intro ops st
    obtain ⟨l, hl⟩ := run_watcher ops st
    rw [hl]
    exact List.prefix_append _ _
  refine ⟨fun _ => rfl, ?_, hgrow, ?_, ?_, ?_, ?_, ?_, ?_⟩
  · intro op st
    obtain ⟨l, hl⟩ := applyOp_watcher op st
    rw [hl]
    exact List.prefix_append _ _
  · intro remote call w wd herr
    obtain ⟨l, hl, pre, hn, hp⟩ := hfailed remote call w wd herr
    rw [hn, hl]
    have hu := unsubscribed_map (w.subscriptionsForX ++ l)
    simp only [unsubscribed] at hp hu
    simp only [unsubscribed, List.filterMap_append, hp, hu, List.nil_append]
  · intro obs t w wd hrecv hquit
    rw [taskStep_quit obs t w wd hrecv hquit]
    simp only [newActions_append]
    exact unsubscribed_map _
  · intro ops st s hs
    exact (hgrow ops st).subset hs
  · intro remote call w wd s hs herr
    obtain ⟨l, -, pre, hn, -⟩ := hfailed remote call w wd herr
    rw [hn]
    simp [hs]
  · intro obs t w wd s hs hrecv hquit
    rw [taskStep_quit obs t w wd hrecv hquit]
    simp [newActions_append, hs]
  · intro obs t w wd s hs hrecv hquit hall
    rw [taskStep_default obs t w wd hrecv hquit, pollErrs_none obs _ wd hall]
    simp [newActions_append, hs]

/-- C10. The field `sinkForX` is never assigned.  `NewWatcher` leaves it nil,
no operation changes it, so it is nil in every reachable state; every
subscribe `WatchX` makes is made with the arguments of the caller, the
caller's sink among them.  Hence in a reachable state the receive case of the
`select` is never ready, an iteration of the background loop sends nothing,
and no execution of a watcher contains a send by a background task. -/
theorem sinkForX_never_assigned :
    (∀ cs, (NewWatcher cs).sinkForX = none) ∧
    (∀ (op : Op) (st : State), (applyOp op st).1.sinkForX = st.1.sinkForX) ∧
    (∀ st, Reachable st → st.1.sinkForX = none) ∧
    (∀ remote call w wd c call1 s,
      Action.subscribed c call1 s ∈ newActions wd (WatchX remote call w wd).world →
      call1 = call) ∧
    (∀ st, Reachable st → ∀ obs : Obs, st.1.sinkForX.bind obs.recv = none) ∧
    (∀ st, Reachable st → ∀ obs t,
      forwarded (newActions st.2 (taskStep obs t st.1 st.2).world) = []) ∧
    (∀ cs wd0 ops, forwarded (newActions wd0 (run ops (NewWatcher cs, wd0)).2) = []) := by
  refine ⟨fun _ => rfl, ?_, reachable_sinkForX, ?_, ?_, ?_, ?_⟩
  · intro op st
    obtain ⟨l, hl⟩ := applyOp_watcher op st
    rw [hl]
  · intro remote call w wd c call1 s hmem
    obtain ⟨l, hl, hk⟩ := WatchX_trace remote call w wd
    rw [newActions_of_append wd _ l hl] at hmem
    rcases hk _ hmem with ⟨c2, s2, h⟩ | ⟨c2, e2, h⟩ | ⟨s2, h⟩ | ⟨t2, h⟩
    · injection h with _ h2 _
    · cases h
    · cases h
    · cases h
  · intro st hst obs
    simp [reachable_sinkForX st hst]
  · intro st hst obs t
    obtain ⟨l, hl, hf⟩ := applyOp_forwarded (Op.step obs t) st (reachable_sinkForX st hst)
    simp only [applyOp] at hl
    rw [newActions_of_append st.2 _ l hl]
    exact hf
  · intro cs wd0 ops
    obtain ⟨l, hl, hf⟩ := run_forwarded ops (NewWatcher cs, wd0) rfl
    rw [newActions_of_append wd0 _ l hl]
    exact hf

/-! ## Repeated calls share the list (C6) -/

theorem polled_map (l : List SubId) : polled (l.map Action.pollErr) = l := by
  induction l with
  | nil => rfl
  | cons s l ih =>
    simp only [polled] at ih
    simp [polled, ih]

/-- C6 as stated fails.  Two successful calls on a watcher over one contract:
the first opens subscription `0`, the second opens subscription `1`.  On
cancellation the task of the second call unsubscribes `0` and `1`, and when
nothing is ready it polls `0` and `1`: not the set the second call opened, and
containing the subscription the first call opened. -/
theorem second_call_unsubscribes_first_call_subscriptions :
    firstCall.err = none ∧ secondCall.err = none ∧
    opened (newActions world0 firstCall.world) = [0] ∧
    opened (newActions firstCall.world secondCall.world) = [1] ∧
    unsubscribed (newActions secondCall.world
      (taskStep obsQuit { sink := 6 } secondCall.watcher secondCall.world).world) = [0, 1] ∧
    polled (newActions secondCall.world
      (taskStep obsIdle { sink := 6 } secondCall.watcher secondCall.world).world) = [0, 1] ∧
    ¬ (∀ s, s ∈ unsubscribed (newActions secondCall.world
          (taskStep obsQuit { sink := 6 } secondCall.watcher secondCall.world).world) ↔
        s ∈ opened (newActions firstCall.world secondCall.world)) ∧
    ¬ (∀ s ∈ opened (newActions world0 firstCall.world),
        s ∉ unsubscribed (newActions secondCall.world
          (taskStep obsQuit { sink := 6 } secondCall.watcher secondCall.world).world)) := by
  have h1 : unsubscribed (newActions secondCall.world
      (taskStep obsQuit { sink := 6 } secondCall.watcher secondCall.world).world) = [0, 1] := by
    decide
  have h2 : opened (newActions firstCall.world secondCall.world) = [1] := by decide
  have h3 : opened (newActions world0 firstCall.world) = [0] := by decide
  refine ⟨by decide, by decide, h3, h2, h1, by decide, ?_, ?_⟩
  · rw [h1, h2]
    intro h
    have := (h 0).1 (by simp)
    simp at this
  · rw [h1, h3]
    intro h
    exact h 0 (by simp) (by simp)

/-- With a nil `sinkForX`, what an operation appends to the subscription list
are exactly the subscriptions its stretch of trace opens. -/
theorem applyOp_opened (op : Op) (st : State) (h : st.1.sinkForX = none) :
    ∃ l, (applyOp op st).2.trace = st.2.trace ++ l ∧
      (applyOp op st).1 =
        { st.1 with subscriptionsForX := st.1.subscriptionsForX ++ opened l } := by
  have hquiet : ∀ l : List Action,
      (∀ a ∈ l, (∃ s, a = Action.unsubscribe s) ∨ (∃ s, a = Action.pollErr s)) →
      opened l = [] := by
    intro l hk
    simp only [opened, List.filterMap_eq_nil_iff]
    intro a ha
    rcases hk a ha with ⟨s, rfl⟩ | ⟨s, rfl⟩ <;> rfl
  cases op with
  | watch remote call =>
    obtain ⟨l, hw, ho⟩ := WatchX_watcher remote call st.1 st.2
    obtain ⟨l1, hl1, -⟩ := WatchX_trace remote call st.1 st.2
    rw [newActions_of_append st.2 _ l1 hl1] at ho
    refine ⟨l1, hl1, ?_⟩
    rw [ho]
    exact hw
  | step obs t =>
    obtain ⟨l, hl, hk⟩ := applyOp_trace (Op.step obs t) st h
    refine ⟨l, hl, ?_⟩
    rw [hquiet l hk]
    simp [applyOp, taskStep_watcher]
  | unsub =>
    obtain ⟨l, hl, hk⟩ := applyOp_trace Op.unsub st h
    refine ⟨l, hl, ?_⟩
    rw [hquiet l hk]
    simp [applyOp]
  | emit s e =>
    cases hs : sinkOf st.2.trace s with
    | some ch =>
      exact ⟨[Action.emit s ch e], by simp [applyOp, hs, World.log],
        by simp [applyOp, hs, opened]⟩
    | none => exact ⟨[], by simp [applyOp, hs], by simp [applyOp, hs, opened]⟩

theorem opened_append (l1 l2 : List Action) : opened (l1 ++ l2) = opened l1 ++ opened l2 := by
  simp [opened, List.filterMap_append]

/-- From a state with a nil `sinkForX`, the subscription list after a run is
the list before followed by exactly the subscriptions the run opened. -/
theorem run_opened (ops : List Op) (st : State) (h : st.1.sinkForX = none) :
    (run ops st).1 =
      { st.1 with
        subscriptionsForX :=
          st.1.subscriptionsForX ++ opened (newActions st.2 (run ops st).2) } := by
  have key : ∀ (ops : List Op) (st : State), st.1.sinkForX = none →
      ∃ l, (run ops st).2.trace = st.2.trace ++ l ∧
        (run ops st).1 =
          { st.1 with subscriptionsForX := st.1.subscriptionsForX ++ opened l } := by
    intro ops
    induction ops with
    | nil => exact fun st _ => ⟨[], by simp [run], by simp [run, opened]⟩
    | cons op ops ih =>
      intro st hst
      obtain ⟨l1, h1, w1⟩ := applyOp_opened op st hst
      have hst1 : (applyOp op st).1.sinkForX = none := by rw [w1]; exact hst
      obtain ⟨l2, h2, w2⟩ := ih (applyOp op st) hst1
      refine ⟨l1 ++ l2, ?_, ?_⟩
      · rw [run_cons, h2, h1, List.append_assoc]
      · rw [run_cons, w2, w1, opened_append]
        simp
  obtain ⟨l, hl, hw⟩ := key ops st h
  rw [newActions_of_append st.2 _ l hl]
  exact hw

/-- C6, amended.  For two successful calls `A` then `B` of `WatchX` on a
watcher built by `NewWatcher`, with anything happening in between (`mid`) and
anything happening after `B` until the task of `B` runs (`later`): the list the
task of `B` then works on is the list as it was before `A`, then the `N`
subscriptions `A` opened, then exactly those opened between `A` and `B`, then
the `N` subscriptions `B` opened, then exactly those opened since.  On
cancellation the task of `B` unsubscribes exactly that whole list; when quit is
not ready it polls a prefix of that list, and the whole of it when no error is
ready. -/
theorem second_call_task_works_on_whole_list (st : State) (remoteA remoteB : Remote)
    (callA callB : Call) (mid later : List Op) (obs : Obs) (t : Task)
    (rA rB : WatchResult) (stm stz : State)
    (hreach : Reachable st)
    (hA : rA = WatchX remoteA callA st.1 st.2) (hAok : rA.err = none)
    (hm : stm = run mid (rA.watcher, rA.world))
    (hB : rB = WatchX remoteB callB stm.1 stm.2) (hBok : rB.err = none)
    (ht : rB.sub = some t)
    (hz : stz = run later (rB.watcher, rB.world)) :
    stz.1.subscriptionsForX =
      st.1.subscriptionsForX ++ opened (newActions st.2 rA.world) ++
        opened (newActions rA.world stm.2) ++ opened (newActions stm.2 rB.world) ++
        opened (newActions rB.world stz.2) ∧
    opened (newActions st.2 rA.world) = freshSubs st.2 st.1.contracts.length ∧
    opened (newActions stm.2 rB.world) = freshSubs stm.2 st.1.contracts.length ∧
    (obs.quit = true →
      (taskStep obs t stz.1 stz.2).outcome = Outcome.done none ∧
      unsubscribed (newActions stz.2 (taskStep obs t stz.1 stz.2).world) =
        stz.1.subscriptionsForX) ∧
    (obs.quit = false →
      polled (newActions stz.2 (taskStep obs t stz.1 stz.2).world) <+:
        stz.1.subscriptionsForX) ∧
    (obs.quit = false → (∀ x ∈ stz.1.subscriptionsForX, obs.errs x = none) →
      polled (newActions stz.2 (taskStep obs t stz.1 stz.2).world) =
        stz.1.subscriptionsForX) := by
  subst hA
  subst hB
  have hsink0 := reachable_sinkForX st hreach
  have hokA := WatchX_ok remoteA callA st.1 st.2 hAok
  have hopA := WatchX_ok_opened remoteA callA st.1 st.2 hAok
  have hsinkA : (WatchX remoteA callA st.1 st.2).watcher.sinkForX = none := by
    rw [hokA]
    exact hsink0
  have hmid := run_opened mid
    ((WatchX remoteA callA st.1 st.2).watcher, (WatchX remoteA callA st.1 st.2).world) hsinkA
  rw [← hm] at hmid
  simp only at hmid
  have hsinkm : stm.1.sinkForX = none := by rw [hmid]; exact hsinkA
  have hokB := WatchX_ok remoteB callB stm.1 stm.2 hBok
  have hopB := WatchX_ok_opened remoteB callB stm.1 stm.2 hBok
  have hsinkB : (WatchX remoteB callB stm.1 stm.2).watcher.sinkForX = none := by
    rw [hokB]
    exact hsinkm
  have hlater := run_opened later
    ((WatchX remoteB callB stm.1 stm.2).watcher, (WatchX remoteB callB stm.1 stm.2).world) hsinkB
  rw [← hz] at hlater
  simp only at hlater
  have hsinkz : stz.1.sinkForX = none := by rw [hlater]; exact hsinkB
  have hrecv : stz.1.sinkForX.bind obs.recv = none := by simp [hsinkz]
  have hcm : stm.1.contracts = st.1.contracts := by
    rw [hmid, hokA]
  have hlistA : (WatchX remoteA callA st.1 st.2).watcher.subscriptionsForX =
      st.1.subscriptionsForX ++ opened (newActions st.2 (WatchX remoteA callA st.1 st.2).world) := by
    rw [hopA, hokA]
  have hlistm : stm.1.subscriptionsForX =
      (WatchX remoteA callA st.1 st.2).watcher.subscriptionsForX ++
        opened (newActions (WatchX remoteA callA st.1 st.2).world stm.2) := by
    rw [hmid]
  have hlistB : (WatchX remoteB callB stm.1 stm.2).watcher.subscriptionsForX =
      stm.1.subscriptionsForX ++
        opened (newActions stm.2 (WatchX remoteB callB stm.1 stm.2).world) := by
    rw [hopB, hokB]
  have hlistz : stz.1.subscriptionsForX =
      (WatchX remoteB callB stm.1 stm.2).watcher.subscriptionsForX ++
        opened (newActions (WatchX remoteB callB stm.1 stm.2).world stz.2) := by
    rw [hlater]
  refine ⟨?_, hopA, ?_, ?_, ?_, ?_⟩
  · rw [hlistz, hlistB, hlistm, hlistA]
  · rw [hopB, hcm]
  · intro hq
    rw [taskStep_quit obs t _ _ hrecv hq]
    simp only [newActions_append]
    exact ⟨trivial, unsubscribed_map _⟩
  · intro hq
    rw [taskStep_default obs t _ _ hrecv hq]
    obtain ⟨k, hk⟩ := pollErrs_trace obs stz.1.subscriptionsForX stz.2
    rcases hp : pollErrs obs stz.1.subscriptionsForX stz.2 with ⟨o, wd1⟩
    rw [hp] at hk
    simp only at hk
    subst hk
    cases o with
    | none =>
      simp only [newActions_append, polled_map]
      exact List.take_prefix _ _
    | some v =>
      simp only [newActions_append, polled_map]
      exact List.take_prefix _ _
  · intro hq hall
    rw [taskStep_default obs t _ _ hrecv hq, pollErrs_none obs _ _ hall]
    simp only [newActions_append]
    exact polled_map _

/-- Instance of the amended C6: the two calls of the counterexample, a third
call after them, and then the cancellation of the task of the second call,
which unsubscribes the subscriptions of all three calls. -/
theorem second_call_task_works_on_whole_list_witness :
    opened (newActions world0 firstCall.world) = [0] ∧
    opened (newActions firstCall.world secondCall.world) = [1] ∧
    opened (newActions secondCall.world thirdCall.world) = [2] ∧
    (taskStep obsQuit { sink := 6 } thirdCall.watcher thirdCall.world).outcome =
      Outcome.done none ∧
    unsubscribed (newActions thirdCall.world
      (taskStep obsQuit { sink := 6 } thirdCall.watcher thirdCall.world).world) =
        [0, 1, 2] := by
  have h := second_call_task_works_on_whole_list (NewWatcher [10], world0) remoteOk remoteOk
    call0 call1 [] [Op.watch remoteOk call0] obsQuit { sink := 6 } firstCall secondCall
    (firstCall.watcher, firstCall.world) (thirdCall.watcher, thirdCall.world)
    ⟨[10], world0, [], rfl⟩ rfl rfl rfl rfl rfl rfl rfl
  have hq := h.2.2.2.1 rfl
  refine ⟨by decide, by decide, by decide, hq.1, ?_⟩
  rw [hq.2]
  decide

/-! ## Delivery to the output sink (C7) -/

theorem sinkOf_append (tr l : List Action) (s : SubId) :
    sinkOf (tr ++ l) s = (sinkOf tr s).or (sinkOf l s) := by
  simp [sinkOf, List.findSome?_append]

theorem sinkOf_cons (a : Action) (l : List Action) (s : SubId) :
    sinkOf (a :: l) s =
      match a with
      | Action.subscribed _ call s1 => if s1 = s then some call.sink else sinkOf l s
      | _ => sinkOf l s := by
  cases a with
  | subscribed c call s1 =>
    by_cases h : s1 = s <;> simp [sinkOf, List.findSome?_cons, h]
  | subscribeFailed c call e => simp [sinkOf, List.findSome?_cons]
  | unsubscribe s1 => simp [sinkOf, List.findSome?_cons]
  | pollErr s1 => simp [sinkOf, List.findSome?_cons]
  | spawn t => simp [sinkOf, List.findSome?_cons]
  | forward ch e => simp [sinkOf, List.findSome?_cons]
  | emit s1 ch e => simp [sinkOf, List.findSome?_cons]

/-- A subscription has a sink in a trace only if the trace opens it. -/
theorem sinkOf_some (l : List Action) (s : SubId) (ch : ChanId)
    (h : sinkOf l s = some ch) :
    ∃ c call, Action.subscribed c call s ∈ l ∧ call.sink = ch := by
  induction l with
  | nil => simp [sinkOf] at h
  | cons a l ih =>
    rw [sinkOf_cons] at h
    cases a with
    | subscribed c call s1 =>
      simp only at h
      by_cases hs : s1 = s
      · subst hs
        simp only [if_true, Option.some.injEq] at h
        exact ⟨c, call, by simp, h⟩
      · simp only [hs, if_false] at h
        obtain ⟨c2, call2, hm, hc⟩ := ih h
        exact ⟨c2, call2, by simp [hm], hc⟩
    | subscribeFailed c call e =>
      obtain ⟨c2, call2, hm, hc⟩ := ih h
      exact ⟨c2, call2, by simp [hm], hc⟩
    | unsubscribe s1 =>
      obtain ⟨c2, call2, hm, hc⟩ := ih h
      exact ⟨c2, call2, by simp [hm], hc⟩
    | pollErr s1 =>
      obtain ⟨c2, call2, hm, hc⟩ := ih h
      exact ⟨c2, call2, by simp [hm], hc⟩
    | spawn t =>
      obtain ⟨c2, call2, hm, hc⟩ := ih h
      exact ⟨c2, call2, by simp [hm], hc⟩
    | forward ch1 e =>
      obtain ⟨c2, call2, hm, hc⟩ := ih h
      exact ⟨c2, call2, by simp [hm], hc⟩
    | emit s1 ch1 e =>
      obtain ⟨c2, call2, hm, hc⟩ := ih h
      exact ⟨c2, call2, by simp [hm], hc⟩

theorem mem_opened (l : List Action) (c : Addr) (call : Call) (s : SubId)
    (h : Action.subscribed c call s ∈ l) : s ∈ opened l := by
  simp only [opened, List.mem_filterMap]
  exact ⟨_, h, rfl⟩

/-- The sinks of the subscriptions opened by consecutive successful subscribes. -/
theorem sinkOf_zipWith (call : Call) (cs : List Addr) (ss : List SubId) (s : SubId)
    (h : cs.length = ss.length) :
    sinkOf (List.zipWith (fun c s => Action.subscribed c call s) cs ss) s =
      if s ∈ ss then some call.sink else none := by
  induction cs generalizing ss with
  | nil =>
    cases ss with
    | nil => simp [sinkOf]
    | cons s1 ss => simp at h
  | cons c cs ih =>
    cases ss with
    | nil => simp at h
    | cons s1 ss =>
      have h1 : cs.length = ss.length := by simpa using h
      rw [List.zipWith_cons_cons, sinkOf_cons]
      simp only
      by_cases hs : s1 = s
      · simp [hs]
      · have hs' : ¬ s = s1 := fun h => hs h.symm
        simp [hs, hs', ih ss h1]

/-- One operation, seen from a sink `S` on which exactly the subscriptions
`subs` deliver: it puts on `S` what `subs` emit in it, and afterwards still
exactly `subs` deliver on `S`. -/
theorem applyOp_delivery (S : ChanId) (subs : List SubId) (op : Op) (st : State)
    (h : st.1.sinkForX = none)
    (hinv : ∀ s, sinkOf st.2.trace s = some S ↔ s ∈ subs)
    (hop : ¬ op.usesSink S) :
    ∃ l, (applyOp op st).2.trace = st.2.trace ++ l ∧
      received S l = emittedBy subs [op] ∧
      ∀ s, sinkOf (st.2.trace ++ l) s = some S ↔ s ∈ subs := by
  obtain ⟨l, hl, hk⟩ := applyOp_trace op st h
  refine ⟨l, hl, ?_, ?_⟩
  · cases op with
    | watch remote call =>
      simp only [received, emittedBy, List.filterMap_cons, List.filterMap_nil,
        List.filterMap_eq_nil_iff]
      intro a ha
      rcases hk a ha with ⟨c, s, rfl⟩ | ⟨c, e, rfl⟩ | ⟨s, rfl⟩ | ⟨t, rfl⟩ <;> rfl
    | step obs t =>
      simp only [received, emittedBy, List.filterMap_cons, List.filterMap_nil,
        List.filterMap_eq_nil_iff]
      intro a ha
      rcases hk a ha with ⟨s, rfl⟩ | ⟨s, rfl⟩ <;> rfl
    | unsub =>
      simp only [received, emittedBy, List.filterMap_cons, List.filterMap_nil,
        List.filterMap_eq_nil_iff]
      intro a ha
      rcases hk a ha with ⟨s, rfl⟩ | ⟨s, rfl⟩ <;> rfl
    | emit s e =>
      simp only at hk
      subst hk
      cases hs : sinkOf st.2.trace s with
      | none =>
        have hns : s ∉ subs := fun hm => by
          have := (hinv s).2 hm
          rw [hs] at this
          cases this
        simp [received, emittedBy, hns]
      | some ch =>
        by_cases hc : ch = S
        · subst hc
          have hm : s ∈ subs := (hinv s).1 hs
          simp [received, emittedBy, hm]
        · have hns : s ∉ subs := fun hm => by
            have := (hinv s).2 hm
            rw [hs] at this
            exact hc (Option.some.inj this)
          simp [received, emittedBy, hns, hc]
  · intro s
    have hnone : sinkOf l s ≠ some S := by
      intro hsome
      obtain ⟨c, call1, hm, hc⟩ := sinkOf_some l s S hsome
      cases op with
      | watch remote call =>
        rcases hk _ hm with ⟨c2, s2, h2⟩ | ⟨c2, e2, h2⟩ | ⟨s2, h2⟩ | ⟨t2, h2⟩
        · injection h2 with _ h3 _
          subst h3
          exact hop hc
        · cases h2
        · cases h2
        · cases h2
      | step obs t => rcases hk _ hm with ⟨s2, h2⟩ | ⟨s2, h2⟩ <;> cases h2
      | unsub => rcases hk _ hm with ⟨s2, h2⟩ | ⟨s2, h2⟩ <;> cases h2
      | emit s1 e =>
        simp only at hk
        subst hk
        cases hs : sinkOf st.2.trace s1 with
        | none => simp [hs] at hm
        | some ch => simp [hs] at hm
    rw [sinkOf_append, ← hinv s]
    cases hs : sinkOf st.2.trace s with
    | some x => simp
    | none =>
      simp only [Option.none_or]
      constructor
      · intro h1
        exact absurd h1 hnone
      · intro h1
        cases h1

theorem received_append (S : ChanId) (l1 l2 : List Action) :
    received S (l1 ++ l2) = received S l1 ++ received S l2 := by
  simp [received, List.filterMap_append]

theorem emittedBy_append (subs : List SubId) (o1 o2 : List Op) :
    emittedBy subs (o1 ++ o2) = emittedBy subs o1 ++ emittedBy subs o2 := by
  simp [emittedBy, List.filterMap_append]

theorem run_delivery (S : ChanId) (subs : List SubId) (ops : List Op) (st : State)
    (h : st.1.sinkForX = none)
    (hinv : ∀ s, sinkOf st.2.trace s = some S ↔ s ∈ subs)
    (hops : ∀ op ∈ ops, ¬ op.usesSink S) :
    ∃ l, (run ops st).2.trace = st.2.trace ++ l ∧ received S l = emittedBy subs ops := by
  induction ops generalizing st with
  | nil => exact ⟨[], by simp [run], rfl⟩
  | cons op ops ih =>
    obtain ⟨l1, h1, r1, i1⟩ := applyOp_delivery S subs op st h hinv (hops op (by simp))
    obtain ⟨lw, hw⟩ := applyOp_watcher op st
    have h' : (applyOp op st).1.sinkForX = none := by rw [hw]; exact h
    rw [← h1] at i1
    obtain ⟨l2, h2, r2⟩ := ih (applyOp op st) h' i1 (fun o ho => hops o (by simp [ho]))
    refine ⟨l1 ++ l2, ?_, ?_⟩
    · rw [run_cons, h2, h1, List.append_assoc]
    · rw [received_append, r1, r2, ← emittedBy_append]
      rfl

theorem received_openActions (S : ChanId) (call : Call) (cs : List Addr) (wd : World) :
    received S (openActions call cs wd ++ [Action.spawn { sink := call.sink }]) = [] := by
  simp only [received, List.filterMap_eq_nil_iff]
  intro a ha
  simp only [List.mem_append, List.mem_singleton] at ha
  rcases ha with ha | ha
  · obtain ⟨c, s, rfl⟩ := mem_zipWith_subscribed call _ _ a ha
    rfl
  · subst ha
    rfl

theorem forwarded_openActions (call : Call) (cs : List Addr) (wd : World) :
    forwarded (openActions call cs wd ++ [Action.spawn { sink := call.sink }]) = [] := by
  simp only [forwarded, List.filterMap_eq_nil_iff]
  intro a ha
  simp only [List.mem_append, List.mem_singleton] at ha
  rcases ha with ha | ha
  · obtain ⟨c, s, rfl⟩ := mem_zipWith_subscribed call _ _ a ha
    rfl
  · subst ha
    rfl

/-- After a successful `WatchX` in a world with fresh handles where nothing
delivered on the sink of the call, exactly the subscriptions the call opened
deliver on that sink. -/
theorem sinkOf_after_WatchX (call : Call) (cs : List Addr) (wd : World)
    (hfresh : wd.Fresh) (hsink : ∀ s, sinkOf wd.trace s ≠ some call.sink) (s : SubId) :
    sinkOf (wd.trace ++ (openActions call cs wd ++ [Action.spawn { sink := call.sink }])) s =
        some call.sink ↔ s ∈ freshSubs wd cs.length := by
  have hz : sinkOf (openActions call cs wd) s =
      if s ∈ freshSubs wd cs.length then some call.sink else none :=
    sinkOf_zipWith call cs _ s (by simp [freshSubs])
  have hsp : sinkOf [Action.spawn { sink := call.sink }] s = none := by
    simp [sinkOf_cons, sinkOf]
  rw [sinkOf_append, sinkOf_append, hz, hsp]
  by_cases hm : s ∈ freshSubs wd cs.length
  · have hold : sinkOf wd.trace s = none := by
      cases hs : sinkOf wd.trace s with
      | none => rfl
      | some ch =>
        obtain ⟨c, call2, hmem, -⟩ := sinkOf_some _ _ _ hs
        have hlt := hfresh s (mem_opened _ c call2 s hmem)
        simp only [freshSubs, List.mem_range'_1] at hm
        exact absurd hlt (Nat.not_lt.mpr hm.1)
    simp [hold, hm]
  · have hne := hsink s
    cases hs : sinkOf wd.trace s with
    | none => simp [hm]
    | some ch =>
      rw [hs] at hne
      simp only [hm, if_false, iff_false]
      simpa using hne

/-- C7. After a successful `WatchX` with sink `S` on a watcher built by
`NewWatcher`, in a world where the handles are fresh and no earlier
subscription delivers on `S`, and as long as no later call subscribes with `S`
again: the events put on `S` since the call are, in order, exactly the events
the subscriptions opened by the call have emitted since, each once; there are
as many of these subscriptions as underlying contracts; and the background
tasks have sent nothing. -/
theorem fan_in_exactly_once (st : State) (remote : Remote) (call : Call) (ops : List Op)
    (r : WatchResult) (st2 : State)
    (hreach : Reachable st) (hfresh : st.2.Fresh)
    (hsink : ∀ s, sinkOf st.2.trace s ≠ some call.sink)
    (hr : r = WatchX remote call st.1 st.2) (hok : r.err = none)
    (hops : ∀ op ∈ ops, ¬ op.usesSink call.sink)
    (hst2 : st2 = run ops (r.watcher, r.world)) :
    received call.sink (newActions st.2 st2.2) =
      emittedBy (opened (newActions st.2 r.world)) ops ∧
    (opened (newActions st.2 r.world)).length = st.1.contracts.length ∧
    forwarded (newActions st.2 st2.2) = [] := by
  subst hr
  have hopen := WatchX_ok_opened remote call st.1 st.2 hok
  have heq := WatchX_ok remote call st.1 st.2 hok
  have hsink0 := reachable_sinkForX st hreach
  have hw : (WatchX remote call st.1 st.2).watcher.sinkForX = none := by
    rw [heq]
    exact hsink0
  have htr : (WatchX remote call st.1 st.2).world.trace = st.2.trace ++
      (openActions call st.1.contracts st.2 ++ [Action.spawn { sink := call.sink }]) := by
    rw [heq]
  have hinv : ∀ s, sinkOf (WatchX remote call st.1 st.2).world.trace s = some call.sink ↔
      s ∈ freshSubs st.2 st.1.contracts.length := by
    intro s
    rw [htr]
    exact sinkOf_after_WatchX call st.1.contracts st.2 hfresh hsink s
  obtain ⟨l, hl, hrec⟩ := run_delivery call.sink (freshSubs st.2 st.1.contracts.length) ops
    ((WatchX remote call st.1 st.2).watcher, (WatchX remote call st.1 st.2).world) hw hinv hops
  obtain ⟨l', hl', hfw⟩ := run_forwarded ops
    ((WatchX remote call st.1 st.2).watcher, (WatchX remote call st.1 st.2).world) hw
  rw [← hst2] at hl hl'
  simp only at hl hl'
  have hll : l' = l := by
    rw [hl] at hl'
    exact (List.append_cancel_left hl').symm
  subst hll
  rw [htr, List.append_assoc] at hl
  rw [newActions_of_append st.2 st2.2 _ hl, hopen]
  refine ⟨?_, by simp [freshSubs], ?_⟩
  · rw [received_append, received_openActions, hrec]
    rfl
  · have h1 := forwarded_openActions call st.1.contracts st.2
    simp only [forwarded] at h1 hfw
    simp only [forwarded, List.filterMap_append, h1, hfw, List.append_nil]

/-- Instance of C7: two contracts, each subscription emitting one event, with an
idle iteration of the background loop in between. -/
theorem fan_in_exactly_once_witness :
    received 5 (newActions world0
      (run [Op.emit 0 100, Op.step obsIdle { sink := 5 }, Op.emit 1 200]
        ((WatchX remoteOk call0 (NewWatcher [10, 11]) world0).watcher,
          (WatchX remoteOk call0 (NewWatcher [10, 11]) world0).world)).2) = [100, 200] := by
  have h := fan_in_exactly_once (NewWatcher [10, 11], world0) remoteOk call0
    [Op.emit 0 100, Op.step obsIdle { sink := 5 }, Op.emit 1 200]
    (WatchX remoteOk call0 (NewWatcher [10, 11]) world0)
    (run [Op.emit 0 100, Op.step obsIdle { sink := 5 }, Op.emit 1 200]
        ((WatchX remoteOk call0 (NewWatcher [10, 11]) world0).watcher,
          (WatchX remoteOk call0 (NewWatcher [10, 11]) world0).world))
    ⟨[10, 11], world0, [], rfl⟩ (by intro s hs; simp [world0, opened] at hs)
    (by intro s; simp [world0, sinkOf]) rfl rfl
    (by
      intro op hop
      simp only [List.mem_cons, List.mem_singleton, List.not_mem_nil, or_false] at hop
      rcases hop with rfl | rfl | rfl <;> exact fun h => h)
    rfl
  exact h.1.trans (by decide)

/-! ## The rendered filter parameters (C8) -/

theorem join_cons (a : String) (l : List String) :
    String.join (a :: l) = a ++ String.join l := by
  apply String.ext
  simp [String.join_eq]

theorem renderFilterParams_eq {T S : Type} (bindtype : T → S → String) (structs : S)
    (inputs : List (Argument T)) :
    renderFilterParams bindtype structs inputs =
      String.join ((indexedInputs inputs).map (paramDecl bindtype structs)) := by
  induction inputs with
  | nil => rfl
  | cons a rest ih =>
    simp only [indexedInputs] at ih
    cases h : a.Indexed with
    | true => simp [renderFilterParams, indexedInputs, h, ih, join_cons, paramDecl]
    | false => simp [renderFilterParams, indexedInputs, h, ih]

theorem renderFilterArgs_eq {T : Type} (inputs : List (Argument T)) :
    renderFilterArgs inputs = String.join ((filterNames inputs).map argText) := by
  induction inputs with
  | nil => rfl
  | cons a rest ih =>
    simp only [filterNames, indexedInputs] at ih
    cases h : a.Indexed with
    | true => simp [renderFilterArgs, filterNames, indexedInputs, h, ih, join_cons, argText]
    | false => simp [renderFilterArgs, filterNames, indexedInputs, h, ih]

/-- C8. For every list of normalized inputs, the rendered signature of `WatchX`
has, after `opts` and `sink`, one parameter declaration (the name of the input
and a slice of its mapped type) per indexed input and none for the others, in
the original order; the rendered call on an underlying contract passes, after
`opts` and `sink`, the names of the indexed inputs in the same order; and the
names declared are the names passed. -/
theorem watch_filter_params_are_indexed_inputs {T S : Type} (bindtype : T → S → String)
    (structs : S) (contractType eventName : String) (inputs : List (Argument T)) :
    renderWatchSignature bindtype structs contractType eventName inputs =
      "func (w *" ++ contractType ++ "Watcher) Watch" ++ eventName ++
        "(opts *bind.WatchOpts, sink chan<- *" ++ contractType ++ eventName ++
        String.join ((indexedInputs inputs).map (paramDecl bindtype structs)) ++
        ") (event.Subscription, error) \x7b" ∧
    renderUnderlyingCall eventName inputs =
      "sub, err := c.Watch" ++ eventName ++
        "(\n\t\t\t\t\topts,\n\t\t\t\t\tsink,\n\t\t\t\t\t" ++
        String.join ((filterNames inputs).map argText) ++ "\n\t\t\t\t)" ∧
    (indexedInputs inputs).map (fun a => a.Name) = filterNames inputs ∧
    (∀ a ∈ indexedInputs inputs, a ∈ inputs ∧ a.Indexed = true) ∧
    (∀ a ∈ inputs, a.Indexed = true → a ∈ indexedInputs inputs) ∧
    (indexedInputs inputs).Sublist inputs := by
  refine ⟨?_, ?_, rfl, ?_, ?_, ?_⟩
  · simp only [renderWatchSignature, renderFilterParams_eq]
  · simp only [renderUnderlyingCall, renderFilterArgs_eq]
  · intro a ha
    simpa [indexedInputs] using ha
  · intro a ha hi
    simp [indexedInputs, ha, hi]
  · exact List.filter_sublist _

end EthLogAggregator
